import Mathlib

/-!
Verification of the companiesmarketcap FMP scraper pipeline.

This file shallowly embeds the scraper found in the repository
(`fmp-scraper`: `toUSD`, `totalGrowthToCAGR`, `isTransientError`,
`fetchWithRetry`, `processSymbolsBatch`, `fetchGlobalStocks`,
`runFMPScraper`, `runPartialUpdate`, and the triggered `/api/scrape`
route) and proves properties of the embedding.

Modelling conventions:
- JavaScript numbers are idealized as exact rationals (`ℚ`) for all
  monetary quantities, prices and ratios; the CAGR growth fields, which
  the source produces with `Math.pow` fractional exponents, are
  idealized as reals (`ℝ`).
- A JavaScript `Map` (insertion ordered, `set` replaces in place) is
  modelled as an association list, see `mapGet` / `mapSet`.
- Each HTTP fetch function is modelled by a behavior
  `String → Nat → FetchOutcome α`: for a symbol and an attempt index it
  either yields the fetch function's return value (`ok`, possibly
  `none` for an empty JSON array) or throws (`err` with an optional
  HTTP status and an error code string).
- Sleeps, timers and log output are irrelevant to the claims and are
  dropped; the backoff schedule itself is modelled by `backoffMs`.
-/

namespace CMC

/-- Association-list model of a JavaScript `Map` keyed by strings:
lookup returns the value stored for the key, if any. -/
def mapGet {α : Type} (m : List (String × α)) (k : String) : Option α :=
  (m.find? (fun p => p.1 == k)).map (fun p => p.2)

/-- Association-list model of `Map.set`: replaces the entry in place if the
key is present (JS `Map` keeps insertion order), otherwise appends. -/
def mapSet {α : Type} (m : List (String × α)) (k : String) (v : α) : List (String × α) :=
  if m.any (fun p => p.1 == k) then
    m.map (fun p => if p.1 == k then (k, v) else p)
  else m ++ [(k, v)]

/-- JavaScript `a || b` on strings: the empty string is falsy. -/
def strOr (a b : String) : String := if a = "" then b else a

/-- `toUSD` from the scraper: `USD` amounts pass through; otherwise the
amount is divided by the FX rate (units of foreign currency per 1 USD).
A missing rate — and, because the source tests the rate with JS
truthiness (`if (!rate)`), a rate equal to `0` — leaves the amount
unconverted. -/
def toUSD (amount : ℚ) (currency : String) (fxRates : List (String × ℚ)) : ℚ :=
  if currency = "USD" then amount
  else
    match mapGet fxRates currency with
    | none => amount
    | some rate => if rate = 0 then amount else amount / rate

/-- `totalGrowthToCAGR`: total 5-year growth to CAGR.
`Math.pow(1 + g, 1/5) - 1`, with total growth `≤ -1` mapped to `-1`. -/
noncomputable def totalGrowthToCAGR (totalGrowth : ℝ) : ℝ :=
  if totalGrowth ≤ -1 then -1
  else (1 + totalGrowth) ^ ((1 : ℝ) / 5) - 1

/-- `totalGrowthToCAGR3Y`: total 3-year growth to CAGR.
`Math.pow(1 + g, 1/3) - 1`, with total growth `≤ -1` mapped to `-1`. -/
noncomputable def totalGrowthToCAGR3Y (totalGrowth : ℝ) : ℝ :=
  if totalGrowth ≤ -1 then -1
  else (1 + totalGrowth) ^ ((1 : ℝ) / 3) - 1

/-- Response record of the FMP `quote` endpoint. -/
structure FMPQuote where
  symbol : String
  name : String
  price : ℚ
  changePercentage : ℚ
  marketCap : ℚ
  yearHigh : Option ℚ
deriving Repr, DecidableEq

/-- Response record of the FMP `profile` endpoint. -/
structure FMPProfile where
  symbol : String
  companyName : String
  country : String
  price : ℚ
deriving Repr, DecidableEq

/-- One quarterly income statement entry. -/
structure FMPIncomeStatement where
  symbol : String
  date : String
  period : String
  revenue : ℚ
  netIncome : ℚ
  operatingIncome : ℚ
  reportedCurrency : String
deriving Repr, DecidableEq

/-- Return value of `fetchQuarterlyIncome`: the quarterly statements plus
the reporting currency read off the first statement (`|| "USD"`). -/
structure IncomeResult where
  statements : List FMPIncomeStatement
  reportedCurrency : String
deriving Repr, DecidableEq

/-- Response record of the FMP `ratios-ttm` endpoint. -/
structure FMPRatiosTTM where
  symbol : String
  priceToEarningsRatioTTM : Option ℚ
  dividendYieldTTM : Option ℚ
deriving Repr, DecidableEq

/-- Response record of the FMP `financial-growth` endpoint. -/
structure FMPFinancialGrowth where
  symbol : String
  fiveYRevenueGrowthPerShare : Option ℚ
  fiveYNetIncomeGrowthPerShare : Option ℚ
  threeYRevenueGrowthPerShare : Option ℚ
  threeYNetIncomeGrowthPerShare : Option ℚ
deriving Repr, DecidableEq

/-- Selected analyst estimate (output of `fetchAnalystEstimates`). -/
structure FMPAnalystEstimate where
  symbol : String
  date : String
  epsAvg : ℚ
deriving Repr, DecidableEq

/-- Outcome of one attempt of a fetch function: either it returns
(`ok`, with `none` standing for JS `null` on an empty JSON array), or it
throws with an optional HTTP status and an error `code` string. -/
inductive FetchOutcome (α : Type) where
  | ok (data : Option α)
  | err (status : Option Nat) (code : String)

/-- The connection-level error codes the scraper treats as transient. -/
def transientCodes : List String :=
  ["ECONNABORTED", "ECONNRESET", "ECONNREFUSED", "ETIMEDOUT", "EPIPE", "EAI_AGAIN"]

/-- `isTransientError`: HTTP 429, any (truthy) status `≥ 500`, or one of
the transient connection error codes. -/
def isTransientError (status : Option Nat) (code : String) : Bool :=
  if status = some 429 then true
  else if (match status with
           | some s => s != 0 && decide (500 ≤ s)
           | none => false) then true
  else transientCodes.contains code

/-- The exponential backoff schedule of `fetchWithRetry`:
`Math.min(1000 * Math.pow(2, attempt), 30000)`. -/
def backoffMs (attempt : Nat) : Nat := min (1000 * 2 ^ attempt) 30000

/-- Loop body of `fetchWithRetry`. The fuel argument counts the loop
iterations still allowed (`maxRetries - attempt`). On a returned value
the data is passed through; on a thrown transient error with
`attempt < maxRetries - 1` the loop continues; otherwise the symbol is
skipped with `null` data. -/
def fetchWithRetryGo {α : Type} (behavior : Nat → FetchOutcome α)
    (maxRetries : Nat) : Nat → Nat → Option α
  | 0, _ => none
  | fuel + 1, attempt =>
    match behavior attempt with
    | .ok d => d
    | .err status code =>
      if isTransientError status code && attempt + 1 < maxRetries then
        fetchWithRetryGo behavior maxRetries fuel (attempt + 1)
      else none

/-- `fetchWithRetry`: drives up to `maxRetries` attempts of the fetch
behavior for one symbol and never throws — a non-retryable error or
retry exhaustion yields `null` data carried next to the symbol. -/
def fetchWithRetry {α : Type} (symbol : String) (behavior : Nat → FetchOutcome α)
    (maxRetries : Nat) : String × Option α :=
  (symbol, fetchWithRetryGo behavior maxRetries maxRetries 0)

/-- `processSymbolsBatch`: runs `fetchWithRetry` (with the production
retry ceiling 5) over the symbols in order (`CONCURRENT_REQUESTS = 1`,
strictly sequential) and collects the successful payloads into a map;
a symbol whose result has `null` data is omitted and processing
continues. -/
def processSymbolsBatch {α : Type} (symbols : List String)
    (behavior : String → Nat → FetchOutcome α) : List (String × α) :=
  symbols.foldl (fun results s =>
    match fetchWithRetry s (behavior s) 5 with
    | (sym, some d) => mapSet results sym d
    | (_, none) => results) []

/-- The hand-maintained supplemental symbol list (`SUPPLEMENTAL_SYMBOLS`):
OTC/foreign symbols the screener omits but the other endpoints support. -/
def SUPPLEMENTAL_SYMBOLS : List String :=
  ["TCEHY", "XIACF", "GMBXF", "MMC", "GLCNF", "KBCSF", "WMMVF", "NPSNY",
   "MLYBY", "FNLPF", "GBTC", "FI", "EXPGF", "CBOE", "K", "BABWF", "ICTEF",
   "DIDIY", "TNABY", "WXXWY", "CYBR", "SVTMF", "AHCHF", "BF-A", "BDOUY",
   "PSHZF", "MNHVF", "SPHXF", "DAY", "LKNCY", "BPYPP", "AYALY", "BPHLY",
   "FNMA", "CHBAY", "IPG", "LLYVA", "FPS", "CADE", "INFA", "LNW", "SNV",
   "ZK", "MRUS", "CBC", "CCCS", "AYAAF", "MTPOY", "FMCC", "FINN", "ABZPY",
   "AKRO", "LBTYB", "NINOY", "JBFCF", "ALE", "GTMEY", "GRP-UN", "TCGL",
   "YSS", "PCH", "JOYY", "REVG", "MPW", "HPP", "ATHM", "NZTCF", "UVRBF",
   "SPNS", "ITCLY", "MLCO", "CIVI", "KYN", "HI", "CASH", "AVDL", "AXL",
   "AVDX", "HOUS", "SCS", "DVAX", "CURLF", "SHCO", "JAMF", "IAS", "RAPT",
   "VBTX", "TSAT", "NXRT", "MLNK", "TIGR", "ATAI", "IVA", "LMRI", "JKS",
   "BASE", "LUXE", "TE", "CDNL", "VMEO", "SOC", "NEO", "GHLD", "THS",
   "HSII", "BTGO", "BFS", "TIXT", "DBVT", "GLOP-PA", "PX", "IOVA", "MRVI",
   "JMIA", "ODV", "CMPX", "METC", "GILT", "EVEX", "CVAC", "SLI", "AKTS",
   "UAMY", "SUPV", "GROY", "NBBK", "JBGS", "CDNA"]

/-- In-memory per-symbol record assembled by the full run (`CompanyData`). -/
structure CompanyData where
  symbol : String
  name : String
  country : String
  marketCap : Option ℚ
  price : Option ℚ
  week52High : Option ℚ
  dailyChangePercent : Option ℚ
  peRatio : Option ℚ
  ttmEPS : Option ℚ
  earnings : Option ℚ
  revenue : Option ℚ
  operatingMargin : Option ℚ
  dividendPercent : Option ℚ
  forwardPE : Option ℚ
  forwardEPS : Option ℚ
  forwardEPSDate : Option String
  revenueGrowth5Y : Option ℝ
  revenueGrowth3Y : Option ℝ
  epsGrowth5Y : Option ℝ
  epsGrowth3Y : Option ℝ

/-- Serialized snapshot record (`DatabaseCompany`), snake_case form. -/
structure DbCompany where
  symbol : String
  name : String
  rank : Option Nat
  market_cap : Option ℚ
  price : Option ℚ
  week_52_high : Option ℚ
  daily_change_percent : Option ℚ
  earnings : Option ℚ
  revenue : Option ℚ
  pe_ratio : Option ℚ
  ttm_eps : Option ℚ
  forward_pe : Option ℚ
  forward_eps : Option ℚ
  forward_eps_date : Option String
  dividend_percent : Option ℚ
  operating_margin : Option ℚ
  revenue_growth_5y : Option ℝ
  revenue_growth_3y : Option ℝ
  eps_growth_5y : Option ℝ
  eps_growth_3y : Option ℝ
  country : String
  last_updated : String

/-- The three TTM sums over the returned quarterly entries:
(revenue, net income, operating income). `q.revenue || 0` is the
identity on exact rationals and is dropped. -/
def ttmSums (stmts : List FMPIncomeStatement) : ℚ × ℚ × ℚ :=
  (stmts.foldl (fun sum q => sum + q.revenue) 0,
   stmts.foldl (fun sum q => sum + q.netIncome) 0,
   stmts.foldl (fun sum q => sum + q.operatingIncome) 0)

/-- The per-symbol record-assembly step of the full run (the body of the
`for (const symbol of validSymbols)` loop): `none` exactly when the
quote is missing; otherwise joins all sub-resources, computes the TTM
values, TTM EPS, forward EPS/PE and CAGR growth fields. Truthiness
tests from the source (`estimate?.epsAvg && estimate.epsAvg > 0` etc.)
are kept as the corresponding `≠ 0` / `> 0` conjunctions. -/
noncomputable def assembleCompany (symbol : String) (quote? : Option FMPQuote)
    (profile? : Option FMPProfile) (incomeResult? : Option IncomeResult)
    (ratio? : Option FMPRatiosTTM) (growthData? : Option FMPFinancialGrowth)
    (estimate? : Option FMPAnalystEstimate) (fxRates : List (String × ℚ)) :
    Option CompanyData :=
  match quote? with
  | none => none
  | some quote =>
    let reportedCurrency :=
      strOr (match incomeResult? with
             | some r => r.reportedCurrency
             | none => "") "USD"
    let ttm : Option ℚ × Option ℚ × Option ℚ :=
      match incomeResult? with
      | some incomeResult =>
        if incomeResult.statements.length > 0 then
          let s := ttmSums incomeResult.statements
          ((if 0 < s.1 then some (toUSD s.1 reportedCurrency fxRates) else none),
           (if s.2.1 ≠ 0 then some (toUSD s.2.1 reportedCurrency fxRates) else none),
           (if 0 < s.1 then some (s.2.2 / s.1) else none))
        else (none, none, none)
      | none => (none, none, none)
    let peRatio : Option ℚ := ratio?.bind (fun r => r.priceToEarningsRatioTTM)
    let ttmEPS : Option ℚ :=
      match peRatio with
      | some p => if p ≠ 0 ∧ 0 < p ∧ quote.price ≠ 0 then some (quote.price / p) else none
      | none => none
    let fwd : Option ℚ × Option ℚ × Option String :=
      match estimate? with
      | some estimate =>
        if estimate.epsAvg ≠ 0 ∧ 0 < estimate.epsAvg then
          let forwardEPS := toUSD estimate.epsAvg reportedCurrency fxRates
          ((if quote.price ≠ 0 ∧ 0 < forwardEPS then some (quote.price / forwardEPS) else none),
           some forwardEPS, some estimate.date)
        else (none, none, none)
      | none => (none, none, none)
    some {
      symbol := symbol
      name := strOr (match profile? with
                     | some p => p.companyName
                     | none => "") (strOr quote.name symbol)
      country := strOr (match profile? with
                        | some p => p.country
                        | none => "") "US"
      marketCap := some quote.marketCap
      price := some quote.price
      week52High := quote.yearHigh
      dailyChangePercent := some quote.changePercentage
      peRatio := peRatio
      ttmEPS := ttmEPS
      earnings := ttm.2.1
      revenue := ttm.1
      operatingMargin := ttm.2.2
      dividendPercent := ratio?.bind (fun r => r.dividendYieldTTM)
      forwardPE := fwd.1
      forwardEPS := fwd.2.1
      forwardEPSDate := fwd.2.2
      revenueGrowth5Y :=
        (growthData?.bind (fun g => g.fiveYRevenueGrowthPerShare)).map
          (fun g => totalGrowthToCAGR (g : ℝ))
      revenueGrowth3Y :=
        (growthData?.bind (fun g => g.threeYRevenueGrowthPerShare)).map
          (fun g => totalGrowthToCAGR3Y (g : ℝ))
      epsGrowth5Y :=
        (growthData?.bind (fun g => g.fiveYNetIncomeGrowthPerShare)).map
          (fun g => totalGrowthToCAGR (g : ℝ))
      epsGrowth3Y :=
        (growthData?.bind (fun g => g.threeYNetIncomeGrowthPerShare)).map
          (fun g => totalGrowthToCAGR3Y (g : ℝ))
    }

/-- Step 8 of the full run: converts an assembled record plus its
assigned rank and the run timestamp to the serialized snapshot form. -/
def toDbCompany (c : CompanyData) (rank : Nat) (timestamp : String) : DbCompany :=
  { symbol := c.symbol
    name := c.name
    rank := some rank
    market_cap := c.marketCap
    price := c.price
    week_52_high := c.week52High
    daily_change_percent := c.dailyChangePercent
    earnings := c.earnings
    revenue := c.revenue
    pe_ratio := c.peRatio
    ttm_eps := c.ttmEPS
    forward_pe := c.forwardPE
    forward_eps := c.forwardEPS
    forward_eps_date := c.forwardEPSDate
    dividend_percent := c.dividendPercent
    operating_margin := c.operatingMargin
    revenue_growth_5y := c.revenueGrowth5Y
    revenue_growth_3y := c.revenueGrowth3Y
    eps_growth_5y := c.epsGrowth5Y
    eps_growth_3y := c.epsGrowth3Y
    country := c.country
    last_updated := timestamp }

/-- Stable insertion of `x` into a list sorted by `le`: `x` is placed
after every element that precedes-or-ties it, so elements comparing
equal keep their arrival order. -/
def insertSorted {α : Type} (le : α → α → Bool) (x : α) : List α → List α
  | [] => [x]
  | y :: t => if le y x then y :: insertSorted le x t else x :: y :: t

/-- Model of the stable comparator sort `Array.prototype.sort` used by
the source (V8's sort is stable): a stable insertion sort. -/
def stableSortBy {α : Type} (le : α → α → Bool) (l : List α) : List α :=
  l.foldl (fun acc x => insertSorted le x acc) []

/-- The descending market-cap comparator of the source sorts
(`(b.marketCap || 0) - (a.marketCap || 0)`), as the sort order it
induces: `a` precedes `b` when `b`'s (null-as-0) market cap does not
exceed `a`'s. -/
def mcDescCD (a b : CompanyData) : Bool := b.marketCap.getD 0 ≤ a.marketCap.getD 0

/-- Steps 7 and 8 of the full run: stable sort by descending market cap
(null treated as 0), then assign dense 1-based ranks in sorted order
and stamp the run timestamp. -/
noncomputable def sortAndRank (companies : List CompanyData) (timestamp : String) :
    List DbCompany :=
  let sorted := stableSortBy mcDescCD companies
  sorted.enum.map (fun p => toDbCompany p.2 (p.1 + 1) timestamp)

/-- The pagination loop of `fetchGlobalStocks`: accumulates screener
pages until an empty or short page (`< limit`) is returned. The fuel
bounds the number of loop iterations. -/
def fetchPages (pages : Nat → List String) (limit : Nat) :
    Nat → Nat → List String → List String
  | 0, _, acc => acc
  | fuel + 1, page, acc =>
    let data := pages page
    if data.length = 0 then acc
    else
      let acc2 := acc ++ data
      if data.length < limit then acc2
      else fetchPages pages limit fuel (page + 1) acc2

/-- `fetchGlobalStocks`: paginated screener fetch with `limit = 10000`;
an empty symbol list is a thrown error (modelled as `Except.error`);
otherwise supplemental symbols not present in the screener result are
appended. -/
def fetchGlobalStocks (pages : Nat → List String) (fuel : Nat) :
    Except String (List String) :=
  let allSymbols := fetchPages pages 10000 fuel 0 []
  if allSymbols.length = 0 then
    .error "Failed to fetch stock list from company-screener"
  else
    let added := SUPPLEMENTAL_SYMBOLS.filter (fun s => !(allSymbols.contains s))
    .ok (allSymbols ++ added)

/-- The environment of one scraper run: the screener pages, the
per-endpoint fetch behaviors (per symbol and attempt), the FX table
fetched once per run, and the run timestamp. -/
structure FMPEnv where
  screenerPages : Nat → List String
  screenerFuel : Nat
  quoteB : String → Nat → FetchOutcome FMPQuote
  profileB : String → Nat → FetchOutcome FMPProfile
  incomeB : String → Nat → FetchOutcome IncomeResult
  ratiosB : String → Nat → FetchOutcome FMPRatiosTTM
  growthB : String → Nat → FetchOutcome FMPFinancialGrowth
  estimatesB : String → Nat → FetchOutcome FMPAnalystEstimate
  fxRates : List (String × ℚ)
  now : String

/-- The quote-validity filter of the full run:
`quote && quote.marketCap && quote.marketCap >= 1_000_000_000` (the JS
truthiness test `quote.marketCap &&` is the extra `≠ 0` conjunct). -/
def validFilter (quotes : List (String × FMPQuote)) (s : String) : Bool :=
  match mapGet quotes s with
  | some quote => quote.marketCap != 0 && decide ((1000000000 : ℚ) ≤ quote.marketCap)
  | none => false

/-- Step 6 of the full run: the record-assembly loop over the valid
symbols — one assembled record per valid symbol with a quote. -/
noncomputable def assembleAll (validSymbols : List String)
    (quotes : List (String × FMPQuote)) (profiles : List (String × FMPProfile))
    (incomeStatements : List (String × IncomeResult)) (ratios : List (String × FMPRatiosTTM))
    (growth : List (String × FMPFinancialGrowth))
    (estimates : List (String × FMPAnalystEstimate))
    (fxRates : List (String × ℚ)) : List CompanyData :=
  validSymbols.filterMap (fun s =>
    assembleCompany s (mapGet quotes s) (mapGet profiles s) (mapGet incomeStatements s)
      (mapGet ratios s) (mapGet growth s) (mapGet estimates s) fxRates)

/-- Steps 2–6 of the full run over a resolved symbol universe: fetch
quotes, filter to valid symbols, fetch the remaining five categories
for the valid symbols, and assemble the records. -/
noncomputable def fullRunCompanies (env : FMPEnv) (allSymbols : List String) :
    List CompanyData :=
  let quotes := processSymbolsBatch allSymbols env.quoteB
  let validSymbols := allSymbols.filter (validFilter quotes)
  let profiles := processSymbolsBatch validSymbols env.profileB
  let incomeStatements := processSymbolsBatch validSymbols env.incomeB
  let ratios := processSymbolsBatch validSymbols env.ratiosB
  let growth := processSymbolsBatch validSymbols env.growthB
  let estimates := processSymbolsBatch validSymbols env.estimatesB
  assembleAll validSymbols quotes profiles incomeStatements ratios growth estimates env.fxRates

/-- `runFMPScraper`: the full run. Resolves the symbol universe,
assembles one record per valid symbol (steps 2–6), sorts by descending
market cap and assigns dense ranks (steps 7–8). A thrown screener
failure propagates as `Except.error`. -/
noncomputable def runFMPScraper (env : FMPEnv) :
    Except String (List DbCompany × String) :=
  match fetchGlobalStocks env.screenerPages env.screenerFuel with
  | .error e => .error e
  | .ok allSymbols => .ok (sortAndRank (fullRunCompanies env allSymbols) env.now, env.now)

/-- Shape of the response of the triggered `/api/scrape` HTTP surface:
status code, error message, and the snapshot written to blob storage
(`none` when nothing was written). -/
structure ScrapeResponse where
  status : Nat
  errorMessage : Option String
  companiesCount : Option Nat
  written : Option (List DbCompany × String)
  durationReported : Bool

/-- The `GET` handler of `/api/scrape`: token check, run the scraper,
treat a zero-company result as a thrown error, upload only on success;
any thrown error is caught and reported as status 500 with the error
message and the elapsed duration, with nothing written. -/
def scrapeRoute (token : Option String) (secret : String)
    (scrape : Except String (List DbCompany × String)) : ScrapeResponse :=
  if token ≠ some secret then
    { status := 401, errorMessage := some "Unauthorized", companiesCount := none,
      written := none, durationReported := false }
  else
    match scrape with
    | .error e =>
      { status := 500, errorMessage := some e, companiesCount := none,
        written := none, durationReported := true }
    | .ok (companies, lastUpdated) =>
      if companies.length = 0 then
        { status := 500, errorMessage := some "No companies returned from FMP scraper",
          companiesCount := none, written := none, durationReported := true }
      else
        { status := 200, errorMessage := none, companiesCount := some companies.length,
          written := some (companies, lastUpdated), durationReported := true }

/-- The eight `--only` partial-update categories. -/
inductive PartialUpdateType where
  | forward_pe
  | quotes
  | financials
  | growth
  | pe_ratio
  | week_52_high
  | new_symbols
  | currency_fix
deriving Repr, DecidableEq

/-- Per-company body of the `forward_pe` branch loop: on a usable
estimate (`epsAvg` truthy and positive) stores the USD-converted
forward EPS and its date and, when the company has a truthy price and
the converted EPS is positive, the recomputed forward P/E. -/
def forwardPEStep (fxRates : List (String × ℚ))
    (incomeStatements : List (String × IncomeResult))
    (estimates : List (String × FMPAnalystEstimate))
    (symbol : String) (company : DbCompany) : DbCompany :=
  match mapGet estimates symbol with
  | some estimate =>
    if estimate.epsAvg ≠ 0 ∧ 0 < estimate.epsAvg then
      let reportedCurrency :=
        strOr (match mapGet incomeStatements symbol with
               | some r => r.reportedCurrency
               | none => "") "USD"
      let epsUSD := toUSD estimate.epsAvg reportedCurrency fxRates
      let fpe :=
        match company.price with
        | some pr => if pr ≠ 0 ∧ 0 < epsUSD then some (pr / epsUSD) else company.forward_pe
        | none => company.forward_pe
      { company with forward_eps := some epsUSD, forward_eps_date := some estimate.date,
                     forward_pe := fpe }
    else company
  | none => company

/-- Per-company body of the `quotes` branch loop: a fetched quote
overwrites price, market cap, daily change and (when the quote carries
one) the 52-week high. -/
def quotesStep (quotes : List (String × FMPQuote)) (symbol : String)
    (company : DbCompany) : DbCompany :=
  match mapGet quotes symbol with
  | some quote =>
    { company with price := some quote.price, market_cap := some quote.marketCap,
                   week_52_high := quote.yearHigh.or company.week_52_high,
                   daily_change_percent := some quote.changePercentage }
  | none => company

/-- Per-company body of the `week_52_high` branch loop. -/
def week52Step (quotes : List (String × FMPQuote)) (symbol : String)
    (company : DbCompany) : DbCompany :=
  match mapGet quotes symbol with
  | some quote =>
    { company with week_52_high := quote.yearHigh.or company.week_52_high }
  | none => company

/-- Per-company body of the `financials` branch loop: recomputes the TTM
values when income statements were fetched (leaving the old values when
the guards fail) and refreshes the ratio-derived fields. -/
def financialsStep (fxRates : List (String × ℚ))
    (incomeStatements : List (String × IncomeResult))
    (ratios : List (String × FMPRatiosTTM))
    (symbol : String) (company : DbCompany) : DbCompany :=
  let c1 :=
    match mapGet incomeStatements symbol with
    | some incomeResult =>
      if incomeResult.statements.length > 0 then
        let reportedCurrency := incomeResult.reportedCurrency
        let s := ttmSums incomeResult.statements
        let ca :=
          if 0 < s.1 then
            { company with revenue := some (toUSD s.1 reportedCurrency fxRates),
                           operating_margin := some (s.2.2 / s.1) }
          else company
        if s.2.1 ≠ 0 then
          { ca with earnings := some (toUSD s.2.1 reportedCurrency fxRates) }
        else ca
      else company
    | none => company
  match mapGet ratios symbol with
  | some ratio =>
    let c2 := { c1 with pe_ratio := ratio.priceToEarningsRatioTTM.or c1.pe_ratio,
                        dividend_percent := ratio.dividendYieldTTM.or c1.dividend_percent }
    match ratio.priceToEarningsRatioTTM, company.price with
    | some p, some pr =>
      if p ≠ 0 ∧ 0 < p ∧ pr ≠ 0 then { c2 with ttm_eps := some (pr / p) } else c2
    | _, _ => c2
  | none => c1

/-- Per-company body of the `growth` branch loop: each non-null fetched
total-growth figure is converted with the CAGR functions. -/
noncomputable def growthStep (growth : List (String × FMPFinancialGrowth))
    (symbol : String) (company : DbCompany) : DbCompany :=
  match mapGet growth symbol with
  | some g =>
    { company with
      revenue_growth_5y :=
        match g.fiveYRevenueGrowthPerShare with
        | some v => some (totalGrowthToCAGR (v : ℝ))
        | none => company.revenue_growth_5y
      revenue_growth_3y :=
        match g.threeYRevenueGrowthPerShare with
        | some v => some (totalGrowthToCAGR3Y (v : ℝ))
        | none => company.revenue_growth_3y
      eps_growth_5y :=
        match g.fiveYNetIncomeGrowthPerShare with
        | some v => some (totalGrowthToCAGR (v : ℝ))
        | none => company.eps_growth_5y
      eps_growth_3y :=
        match g.threeYNetIncomeGrowthPerShare with
        | some v => some (totalGrowthToCAGR3Y (v : ℝ))
        | none => company.eps_growth_3y }
  | none => company

/-- Per-company body of the `pe_ratio` branch loop. -/
def peRatioStep (ratios : List (String × FMPRatiosTTM)) (symbol : String)
    (company : DbCompany) : DbCompany :=
  match mapGet ratios symbol with
  | some ratio =>
    match ratio.priceToEarningsRatioTTM with
    | some p =>
      if p ≠ 0 ∧ 0 < p then
        let c1 := { company with pe_ratio := some p }
        match company.price with
        | some pr => if pr ≠ 0 then { c1 with ttm_eps := some (pr / p) } else c1
        | none => c1
      else company
    | none => company
  | none => company

/-- Per-company body of the `currency_fix` branch loop. Returns the
updated record together with the deltas of the `updated` and
`skippedUSD` counters: no income result leaves both counters alone,
a USD reporting currency counts as skipped and leaves the record
untouched, and only a non-USD company has its monetary fields
recomputed and counts as updated. -/
def currencyFixStep (fxRates : List (String × ℚ))
    (incomeStatements : List (String × IncomeResult))
    (estimates : List (String × FMPAnalystEstimate))
    (symbol : String) (company : DbCompany) : DbCompany × Nat × Nat :=
  match mapGet incomeStatements symbol with
  | none => (company, 0, 0)
  | some incomeResult =>
    if incomeResult.reportedCurrency = "USD" then (company, 0, 1)
    else
      let reportedCurrency := incomeResult.reportedCurrency
      let c1 :=
        if incomeResult.statements.length > 0 then
          let s := ttmSums incomeResult.statements
          let ca :=
            if 0 < s.1 then
              { company with revenue := some (toUSD s.1 reportedCurrency fxRates),
                             operating_margin := some (s.2.2 / s.1) }
            else company
          if s.2.1 ≠ 0 then
            { ca with earnings := some (toUSD s.2.1 reportedCurrency fxRates) }
          else ca
        else company
      let c2 :=
        match mapGet estimates symbol with
        | some estimate =>
          if estimate.epsAvg ≠ 0 ∧ 0 < estimate.epsAvg then
            let epsUSD := toUSD estimate.epsAvg reportedCurrency fxRates
            let cb := { c1 with forward_eps := some epsUSD,
                                forward_eps_date := some estimate.date }
            match c1.price with
            | some pr => if pr ≠ 0 ∧ 0 < epsUSD then { cb with forward_pe := some (pr / epsUSD) } else cb
            | none => cb
          else c1
        | none => c1
      (c2, 1, 0)

/-- The `currency_fix` loop over the company map, accumulating the map
of (possibly) rewritten records and the two counters. -/
def currencyFixFold (step : String → DbCompany → DbCompany × Nat × Nat)
    (m : List (String × DbCompany)) : List (String × DbCompany) × Nat × Nat :=
  m.foldl (fun acc p =>
    let r := step p.1 p.2
    (acc.1 ++ [(p.1, r.1)], acc.2.1 + r.2.1, acc.2.2 + r.2.2)) ([], 0, 0)

/-- Descending market-cap order on snapshot records (null as 0). -/
def mcDescDb (a b : DbCompany) : Bool := b.market_cap.getD 0 ≤ a.market_cap.getD 0

/-- Re-sort and re-rank of the `quotes` branch: the map keeps its
insertion order, but every record's `rank` becomes its 1-based position
in the list of values sorted by descending market cap (the source
mutates the shared objects through the sorted array). -/
def assignRanks (m : List (String × DbCompany)) : List (String × DbCompany) :=
  let sorted := stableSortBy (fun a b => mcDescDb a.2 b.2) m
  m.map (fun p => (p.1,
    { p.2 with rank := match sorted.findIdx? (fun q => q.1 == p.1) with
                       | some i => some (i + 1)
                       | none => p.2.rank }))

/-- Assembly of a brand-new record in the `new_symbols` branch: the
inline code is the same computation as the full run's record assembly,
but the record is created with `rank: null` and the branch timestamp. -/
noncomputable def newSymbolCompany (symbol : String) (quote? : Option FMPQuote)
    (profile? : Option FMPProfile) (incomeResult? : Option IncomeResult)
    (ratio? : Option FMPRatiosTTM) (growthData? : Option FMPFinancialGrowth)
    (estimate? : Option FMPAnalystEstimate) (fxRates : List (String × ℚ))
    (timestamp : String) : Option DbCompany :=
  (assembleCompany symbol quote? profile? incomeResult? ratio? growthData? estimate?
      fxRates).map
    (fun c => { toDbCompany c 0 timestamp with rank := none })

/-- Construction of the partial updates' lookup map: every loaded record
is `set` into a map keyed by its symbol. -/
def toCompanyMap (companies : List DbCompany) : List (String × DbCompany) :=
  companies.foldl (fun m c => mapSet m c.symbol c) []

/-- `runPartialUpdate`: loads the existing snapshot into a map keyed by
symbol, runs only the requested category's fetches and field updates,
then re-stamps `last_updated` on every record and returns the map's
values — except that a `new_symbols` run finding no new supplemental
symbols returns the loaded snapshot (and its old timestamp) unchanged,
skipping the re-stamp. -/
noncomputable def runPartialUpdate (updateType : PartialUpdateType) (env : FMPEnv)
    (existingCompanies : List DbCompany) (existingLastUpdated : String) :
    List DbCompany × String :=
  let symbols := existingCompanies.map (fun c => c.symbol)
  let companyMap := toCompanyMap existingCompanies
  let result : Option (List (String × DbCompany)) :=
    match updateType with
    | .forward_pe =>
      let incomeStatements := processSymbolsBatch symbols env.incomeB
      let estimates := processSymbolsBatch symbols env.estimatesB
      some (companyMap.map (fun p =>
        (p.1, forwardPEStep env.fxRates incomeStatements estimates p.1 p.2)))
    | .quotes =>
      let quotes := processSymbolsBatch symbols env.quoteB
      some (assignRanks (companyMap.map (fun p => (p.1, quotesStep quotes p.1 p.2))))
    | .week_52_high =>
      let quotes := processSymbolsBatch symbols env.quoteB
      some (companyMap.map (fun p => (p.1, week52Step quotes p.1 p.2)))
    | .financials =>
      let incomeStatements := processSymbolsBatch symbols env.incomeB
      let ratios := processSymbolsBatch symbols env.ratiosB
      some (companyMap.map (fun p =>
        (p.1, financialsStep env.fxRates incomeStatements ratios p.1 p.2)))
    | .growth =>
      let growth := processSymbolsBatch symbols env.growthB
      some (companyMap.map (fun p => (p.1, growthStep growth p.1 p.2)))
    | .pe_ratio =>
      let ratios := processSymbolsBatch symbols env.ratiosB
      some (companyMap.map (fun p => (p.1, peRatioStep ratios p.1 p.2)))
    | .currency_fix =>
      let incomeStatements := processSymbolsBatch symbols env.incomeB
      let estimates := processSymbolsBatch symbols env.estimatesB
      some (currencyFixFold
        (currencyFixStep env.fxRates incomeStatements estimates) companyMap).1
    | .new_symbols =>
      let newSymbols := SUPPLEMENTAL_SYMBOLS.filter (fun s => !(symbols.contains s))
      if newSymbols.length = 0 then none
      else
        let quotes := processSymbolsBatch newSymbols env.quoteB
        let validNewSymbols := newSymbols.filter (fun s =>
          match mapGet quotes s with
          | some quote => quote.marketCap != 0 && decide ((100000000 : ℚ) ≤ quote.marketCap)
          | none => false)
        let profiles := processSymbolsBatch validNewSymbols env.profileB
        let incomeStatements := processSymbolsBatch validNewSymbols env.incomeB
        let ratios := processSymbolsBatch validNewSymbols env.ratiosB
        let growthData := processSymbolsBatch validNewSymbols env.growthB
        let estData := processSymbolsBatch validNewSymbols env.estimatesB
        let withNew := validNewSymbols.foldl (fun m s =>
          match newSymbolCompany s (mapGet quotes s) (mapGet profiles s)
              (mapGet incomeStatements s) (mapGet ratios s) (mapGet growthData s)
              (mapGet estData s) env.fxRates env.now with
          | some c => mapSet m s c
          | none => m) companyMap
        let allCompanies := stableSortBy mcDescDb (withNew.map (fun p => p.2))
        let ranked := allCompanies.enum.map (fun p => { p.2 with rank := some (p.1 + 1) })
        some (ranked.foldl (fun m c => mapSet m c.symbol c) [])
  match result with
  | none => (existingCompanies, existingLastUpdated)
  | some m =>
    let restamped := m.map (fun p => (p.1, { p.2 with last_updated := env.now }))
    (restamped.map (fun p => p.2), env.now)

/-! ### Map lemmas -/

theorem mapGet_nil {α : Type} (k : String) : mapGet ([] : List (String × α)) k = none := rfl

theorem find?_subst_self {α : Type} (m : List (String × α)) (k : String) (v : α)
    (h : m.any (fun p => p.1 == k) = true) :
    (m.map (fun p => if p.1 == k then (k, v) else p)).find? (fun p => p.1 == k) =
      some (k, v) := by
  induction m with
  | nil => simp at h
  | cons p t ih =>
    rw [List.map_cons, List.find?_cons]
    by_cases hp : (p.1 == k) = true
    · rw [if_pos hp]
      simp
    · rw [if_neg hp]
      rw [show ((p : String × α).1 == k) = false from Bool.eq_false_iff.mpr hp]
      simp only [List.any_cons, Bool.or_eq_true] at h
      rcases h with h | h
      · exact absurd h hp
      · exact ih h

theorem find?_subst_ne {α : Type} (m : List (String × α)) (k k2 : String) (v : α)
    (hk : k2 ≠ k) :
    (m.map (fun p => if p.1 == k then (k, v) else p)).find? (fun p => p.1 == k2) =
      m.find? (fun p => p.1 == k2) := by
  induction m with
  | nil => rfl
  | cons p t ih =>
    rw [List.map_cons, List.find?_cons, List.find?_cons]
    by_cases hp : (p.1 == k) = true
    · have hpk : p.1 = k := by simpa using hp
      have h1 : (p.1 == k2) = false := by
        rw [Bool.eq_false_iff]
        simp [hpk]
        exact fun h => hk h.symm
      have h2 : ((k : String) == k2) = false := by
        rw [Bool.eq_false_iff]
        simp
        exact fun h => hk h.symm
      rw [if_pos hp]
      rw [show (((k, v) : String × α).1 == k2) = false from h2, h1]
      exact ih
    · rw [if_neg hp]
      by_cases hp2 : (p.1 == k2) = true
      · rw [hp2]
      · rw [show ((p : String × α).1 == k2) = false from Bool.eq_false_iff.mpr hp2]
        exact ih

theorem mapGet_mapSet {α : Type} (m : List (String × α)) (k k2 : String) (v : α) :
    mapGet (mapSet m k v) k2 = if k2 = k then some v else mapGet m k2 := by
  unfold mapSet mapGet
  by_cases hany : m.any (fun p => p.1 == k) = true
  · simp only [hany, if_true]
    by_cases hk : k2 = k
    · subst hk
      rw [find?_subst_self m k2 v hany]
      simp
    · rw [find?_subst_ne m k k2 v hk]
      simp [hk]
  · rw [if_neg (by simpa using hany)]
    rw [List.find?_append]
    have hmnone : k2 = k → m.find? (fun p => p.1 == k2) = none := by
      intro hk
      subst hk
      rw [List.find?_eq_none]
      intro p hp
      exact (List.any_eq_false.mp (Bool.eq_false_iff.mpr hany)) p hp
    by_cases hk : k2 = k
    · subst hk
      rw [hmnone rfl]
      simp [List.find?_cons]
    · have h2 : ((k : String) == k2) = false := by
        simp
        exact fun h => hk h.symm
      cases hf : m.find? (fun p => p.1 == k2) with
      | some p => simp [Option.or, hk]
      | none => simp [Option.or, List.find?_cons, h2, hk]

theorem mapGet_mapSet_self {α : Type} (m : List (String × α)) (k : String) (v : α) :
    mapGet (mapSet m k v) k = some v := by
  rw [mapGet_mapSet]
  simp

theorem mapGet_mapSet_ne {α : Type} (m : List (String × α)) (k k2 : String) (v : α)
    (h : k2 ≠ k) : mapGet (mapSet m k v) k2 = mapGet m k2 := by
  rw [mapGet_mapSet]
  simp [h]

/-! ### Batch-processing lemmas -/

/-- The per-symbol eventual result of a batch: what `fetchWithRetry`
yields for the symbol with the production retry ceiling. -/
def eventualResult {α : Type} (behavior : String → Nat → FetchOutcome α) (s : String) :
    Option α :=
  (fetchWithRetry s (behavior s) 5).2

theorem batchStep_get {α : Type} (behavior : String → Nat → FetchOutcome α)
    (results : List (String × α)) (a s : String) :
    mapGet (match fetchWithRetry a (behavior a) 5 with
            | (sym, some d) => mapSet results sym d
            | (_, none) => results) s =
      if s = a then
        (match eventualResult behavior a with
         | some d => some d
         | none => mapGet results a)
      else mapGet results s := by
  unfold eventualResult fetchWithRetry
  cases h : fetchWithRetryGo (behavior a) 5 5 0 with
  | some d =>
    simp only [h]
    rw [mapGet_mapSet]
  | none =>
    simp only [h]
    by_cases hs : s = a
    · subst hs
      simp
    · simp [hs]

theorem processSymbolsBatch_go_get {α : Type} (behavior : String → Nat → FetchOutcome α)
    (symbols : List String) (init : List (String × α)) (s : String) :
    mapGet (symbols.foldl (fun results t =>
      match fetchWithRetry t (behavior t) 5 with
      | (sym, some d) => mapSet results sym d
      | (_, none) => results) init) s =
      if s ∈ symbols ∧ (eventualResult behavior s).isSome then eventualResult behavior s
      else if s ∈ symbols then mapGet init s
      else mapGet init s := by
  induction symbols generalizing init with
  | nil => simp
  | cons a t ih =>
    rw [List.foldl_cons, ih]
    rw [batchStep_get]
    by_cases hmem : s ∈ t
    · by_cases hres : (eventualResult behavior s).isSome
      · simp [hmem, hres]
      · simp only [hmem, and_true, List.mem_cons, or_true, true_and, if_true,
          hres, and_false, if_false]
        by_cases hsa : s = a
        · subst hsa
          cases h : eventualResult behavior s with
          | some d => simp [h] at hres
          | none => simp [h]
        · simp [hsa]
    · by_cases hsa : s = a
      · subst hsa
        simp only [hmem, false_and, if_false, false_or, List.mem_cons, true_or, true_and,
          or_false, if_pos rfl]
        cases h : eventualResult behavior s with
        | some d => simp [h]
        | none => simp [h]
      · simp [hmem, hsa]

/-- For every symbol of the batch whose retries ended in a payload, the
result map holds that payload; a symbol whose retries ended with null
data is missing from the result map (it was skipped, and the batch went
on past it). -/
theorem processSymbolsBatch_get {α : Type} (behavior : String → Nat → FetchOutcome α)
    (symbols : List String) (s : String) (hs : s ∈ symbols) :
    mapGet (processSymbolsBatch symbols behavior) s = eventualResult behavior s := by
  unfold processSymbolsBatch
  rw [processSymbolsBatch_go_get]
  cases h : eventualResult behavior s with
  | some d => simp [hs, h]
  | none => simp [hs, h, mapGet]

/-! ### C3: CAGR conversion -/

/-- C3 (confirmed): for every total growth `g ≤ -1` both CAGR conversion
functions return exactly `-1`; and for every `g > -1`, compounding the
result back over the period (5 years resp. 3 years) recovers `g`
exactly in the real-number idealization (hence within floating-point
tolerance in the implementation). -/
theorem C3_cagr_round_trip (g : ℝ) :
    (g ≤ -1 → totalGrowthToCAGR g = -1 ∧ totalGrowthToCAGR3Y g = -1) ∧
    (-1 < g → (1 + totalGrowthToCAGR g) ^ (5 : ℕ) - 1 = g ∧
              (1 + totalGrowthToCAGR3Y g) ^ (3 : ℕ) - 1 = g) := by
  constructor
  · intro h
    constructor
    · simp [totalGrowthToCAGR, h]
    · simp [totalGrowthToCAGR3Y, h]
  · intro h
    have hnot : ¬ g ≤ -1 := not_le.mpr h
    have h0 : (0 : ℝ) ≤ 1 + g := by linarith
    constructor
    · rw [totalGrowthToCAGR, if_neg hnot]
      have : (1 : ℝ) + ((1 + g) ^ ((1 : ℝ) / 5) - 1) = (1 + g) ^ ((1 : ℝ) / 5) := by ring
      rw [this, ← Real.rpow_natCast ((1 + g) ^ ((1 : ℝ) / 5)) 5, ← Real.rpow_mul h0]
      norm_num
    · rw [totalGrowthToCAGR3Y, if_neg hnot]
      have : (1 : ℝ) + ((1 + g) ^ ((1 : ℝ) / 3) - 1) = (1 + g) ^ ((1 : ℝ) / 3) := by ring
      rw [this, ← Real.rpow_natCast ((1 + g) ^ ((1 : ℝ) / 3)) 3, ← Real.rpow_mul h0]
      norm_num

/-- Witness for C3 at the concrete growths `-2` (over-100% decline) and
`0` (flat). -/
theorem C3_cagr_round_trip_witness :
    totalGrowthToCAGR (-2) = -1 ∧ (1 + totalGrowthToCAGR 0) ^ (5 : ℕ) - 1 = 0 :=
  ⟨((C3_cagr_round_trip (-2)).1 (by norm_num)).1,
   ((C3_cagr_round_trip 0).2 (by norm_num)).1⟩

/-! ### C4: currency conversion -/

/-- C4 counterexample: the claim states that whenever the currency code
is present in the FX table the amount is divided by the stored rate.
With the rate `0` stored for `"EUR"` the source's truthiness test
`if (!rate)` treats the entry as absent and returns the amount
unconverted: `toUSD 5 "EUR" {EUR ↦ 0} = 5`, which is not `5 / 0`
(division by the stored rate yields `0` in exact arithmetic, `Infinity`
in JS — not `5` in either reading). -/
theorem C4_toUSD_zero_rate_counterexample :
    mapGet [("EUR", (0 : ℚ))] "EUR" = some 0 ∧
    toUSD 5 "EUR" [("EUR", (0 : ℚ))] = 5 ∧
    (5 : ℚ) / 0 ≠ 5 := by
  refine ⟨rfl, rfl, by norm_num⟩

/-- C4 (corrected): `toUSD` returns the amount unchanged for `"USD"`;
for a non-USD code present in the table with a nonzero rate it returns
the amount divided by that rate; and for a code that is absent — or
present with a zero rate, which the JS truthiness test conflates with
absence — it returns the amount unconverted (fail-open). -/
theorem C4_toUSD_correct (amount : ℚ) (currency : String)
    (fxRates : List (String × ℚ)) :
    (currency = "USD" → toUSD amount currency fxRates = amount) ∧
    (∀ rate : ℚ, currency ≠ "USD" → mapGet fxRates currency = some rate → rate ≠ 0 →
      toUSD amount currency fxRates = amount / rate) ∧
    (currency ≠ "USD" → mapGet fxRates currency = none →
      toUSD amount currency fxRates = amount) ∧
    (currency ≠ "USD" → mapGet fxRates currency = some 0 →
      toUSD amount currency fxRates = amount) := by
  refine ⟨fun h => by simp [toUSD, h], fun rate hne hget hrate => ?_, fun hne hget => ?_,
    fun hne hget => ?_⟩
  · simp [toUSD, hne, hget, hrate]
  · simp [toUSD, hne, hget]
  · simp [toUSD, hne, hget]

/-- Witness for C4 at the spec's own example: a USD amount passes
through any table unchanged, and `toUSD(92, "EUR", {EUR ↦ 0.92}) = 100`. -/
theorem C4_toUSD_correct_witness :
    toUSD 7 "USD" [("EUR", (92 : ℚ) / 100)] = 7 ∧
    toUSD 92 "EUR" [("EUR", (92 : ℚ) / 100)] = 100 := by
  constructor
  · exact (C4_toUSD_correct 7 "USD" [("EUR", (92 : ℚ) / 100)]).1 rfl
  · have h := (C4_toUSD_correct 92 "EUR" [("EUR", (92 : ℚ) / 100)]).2.1
      ((92 : ℚ) / 100) (by decide) rfl (by norm_num)
    rw [h]
    norm_num

/-! ### C6: retry and batch error handling -/

theorem fetchWithRetryGo_err {α : Type} (b : Nat → FetchOutcome α) (mr fuel attempt : Nat)
    (st : Option Nat) (cd : String) (hb : b attempt = .err st cd) :
    fetchWithRetryGo b mr (fuel + 1) attempt =
      if isTransientError st cd && attempt + 1 < mr then
        fetchWithRetryGo b mr fuel (attempt + 1)
      else none := by
  conv_lhs => unfold fetchWithRetryGo
  rw [hb]

theorem fetchWithRetryGo_ok {α : Type} (b : Nat → FetchOutcome α) (mr fuel attempt : Nat)
    (d : Option α) (hb : b attempt = .ok d) :
    fetchWithRetryGo b mr (fuel + 1) attempt = d := by
  unfold fetchWithRetryGo
  rw [hb]

theorem isTransientError_429 (cd : String) : isTransientError (some 429) cd = true := by
  unfold isTransientError
  simp

theorem isTransientError_404 (cd : String) (hcd : transientCodes.contains cd = false) :
    isTransientError (some 404) cd = false := by
  unfold isTransientError
  simp
  simpa using hcd

theorem fetchWithRetryGo_all_transient {α : Type} (b : Nat → FetchOutcome α) (mr : Nat)
    (h : ∀ i, i < mr → ∃ st cd, b i = FetchOutcome.err st cd ∧ isTransientError st cd = true) :
    ∀ fuel attempt, attempt + fuel = mr → fetchWithRetryGo b mr fuel attempt = none := by
  intro fuel
  induction fuel with
  | zero => intro attempt _; rfl
  | succ f ih =>
    intro attempt hsum
    obtain ⟨st, cd, hb, ht⟩ := h attempt (by omega)
    rw [fetchWithRetryGo_err b mr f attempt st cd hb]
    by_cases hlt : attempt + 1 < mr
    · rw [if_pos (by simp [ht, hlt])]
      exact ih (attempt + 1) (by omega)
    · rw [if_neg (by simp [hlt])]

/-- C6 (confirmed): `fetchWithRetry` is a total function into
symbol-plus-optional-payload (it never throws). The backoff schedule
doubles per attempt and is capped at the 30000 ms ceiling; an HTTP 404
(whose error code is not a transient connection code) yields null data
immediately; five transient-error attempts exhaust the production retry
ceiling of 5 and yield null data; a behavior answering 429 twice and
then succeeding ends with the successful payload; and the batch
processor records each symbol's eventual result — omitting (and
continuing past) exactly the symbols whose retries ended with null
data. -/
theorem C6_fetch_retry_batch {α : Type} (b : Nat → FetchOutcome α)
    (behavior : String → Nat → FetchOutcome α) (symbols : List String)
    (sym : String) (d : α) :
    (∀ i, backoffMs (i + 1) = min (2 * backoffMs i) 30000) ∧
    (∀ code, transientCodes.contains code = false →
      b 0 = FetchOutcome.err (some 404) code → (fetchWithRetry sym b 5).2 = none) ∧
    ((∀ i, i < 5 → ∃ st cd, b i = FetchOutcome.err st cd ∧ isTransientError st cd = true) →
      (fetchWithRetry sym b 5).2 = none) ∧
    (b 0 = FetchOutcome.err (some 429) "" → b 1 = FetchOutcome.err (some 429) "" →
      b 2 = FetchOutcome.ok (some d) → (fetchWithRetry sym b 5).2 = some d) ∧
    (∀ s ∈ symbols,
      mapGet (processSymbolsBatch symbols behavior) s = eventualResult behavior s) := by
  refine ⟨?_, ?_, ?_, ?_, ?_⟩
  · intro i
    unfold backoffMs
    rw [show 1000 * 2 ^ (i + 1) = 2 * (1000 * 2 ^ i) by ring]
    generalize 1000 * 2 ^ i = y
    omega
  · intro code hcode hb
    show fetchWithRetryGo b 5 5 0 = none
    rw [show fetchWithRetryGo b 5 5 0 = fetchWithRetryGo b 5 (4 + 1) 0 from rfl,
        fetchWithRetryGo_err b 5 4 0 (some 404) code hb,
        isTransientError_404 code hcode]
    simp
  · intro h
    exact fetchWithRetryGo_all_transient b 5 h 5 0 rfl
  · intro h0 h1 h2
    show fetchWithRetryGo b 5 5 0 = some d
    rw [show fetchWithRetryGo b 5 5 0 = fetchWithRetryGo b 5 (4 + 1) 0 from rfl,
        fetchWithRetryGo_err b 5 4 0 (some 429) "" h0,
        if_pos (by simp [isTransientError_429])]
    rw [show fetchWithRetryGo b 5 4 (0 + 1) = fetchWithRetryGo b 5 (3 + 1) 1 from rfl,
        fetchWithRetryGo_err b 5 3 1 (some 429) "" h1,
        if_pos (by simp [isTransientError_429])]
    rw [show fetchWithRetryGo b 5 3 (1 + 1) = fetchWithRetryGo b 5 (2 + 1) 2 from rfl]
    exact fetchWithRetryGo_ok b 5 2 2 (some d) h2
  · intro s hs
    exact processSymbolsBatch_get behavior symbols s hs

/-- The rate-limit-recovery scenario behavior: HTTP 429 twice, then a
successful payload on the third attempt. -/
def behaviorDDD : Nat → FetchOutcome Nat
  | 0 => .err (some 429) ""
  | 1 => .err (some 429) ""
  | _ => .ok (some 42)

/-- A permanent-404 behavior. -/
def behavior404 : Nat → FetchOutcome Nat :=
  fun _ => .err (some 404) "ERR_BAD_REQUEST"

/-- An always-503 behavior (transient, never recovers). -/
def behavior503 : Nat → FetchOutcome Nat :=
  fun _ => .err (some 503) "X"

/-- Witness for C6 at concrete behaviors: the backoff doubling at
attempt 3, the 404 skip, retry exhaustion on permanent 503s, the
`DDD` rate-limit-recovery scenario, and the batch map carrying `DDD`'s
eventual payload. -/
theorem C6_fetch_retry_batch_witness :
    backoffMs 3 = min (2 * backoffMs 2) 30000 ∧
    (fetchWithRetry "AAA" behavior404 5).2 = none ∧
    (fetchWithRetry "BBB" behavior503 5).2 = none ∧
    (fetchWithRetry "DDD" behaviorDDD 5).2 = some 42 ∧
    mapGet (processSymbolsBatch ["DDD"] (fun _ => behaviorDDD)) "DDD" = some 42 := by
  refine ⟨(C6_fetch_retry_batch behaviorDDD (fun _ => behaviorDDD) ["DDD"] "DDD" 42).1 2,
    (C6_fetch_retry_batch behavior404 (fun _ => behaviorDDD) ["DDD"] "AAA" 42).2.1
      "ERR_BAD_REQUEST" (by decide) rfl,
    (C6_fetch_retry_batch behavior503 (fun _ => behaviorDDD) ["DDD"] "BBB" 42).2.2.1
      (fun i _ => ⟨some 503, "X", rfl, by decide⟩),
    (C6_fetch_retry_batch behaviorDDD (fun _ => behaviorDDD) ["DDD"] "DDD" 42).2.2.2.1
      rfl rfl rfl,
    ?_⟩
  rw [(C6_fetch_retry_batch behaviorDDD (fun _ => behaviorDDD) ["DDD"] "DDD" 42).2.2.2.2
    "DDD" (by simp)]
  exact (C6_fetch_retry_batch behaviorDDD (fun _ => behaviorDDD) ["DDD"] "DDD" 42).2.2.2.1
    rfl rfl rfl

/-! ### C5: TTM sums -/

/-- The three income-derived fields of an assembled record, for a
nonempty fetched income result, as the guarded TTM expressions of the
source. -/
theorem assembleCompany_income_fields (sym : String) (quote : FMPQuote)
    (profile? : Option FMPProfile) (r : IncomeResult) (ratio? : Option FMPRatiosTTM)
    (growth? : Option FMPFinancialGrowth) (est? : Option FMPAnalystEstimate)
    (fx : List (String × ℚ)) (hlen : r.statements.length > 0) :
    ∃ cd, assembleCompany sym (some quote) profile? (some r) ratio? growth?
        est? fx = some cd ∧
      cd.revenue = (if 0 < (ttmSums r.statements).1 then
        some (toUSD (ttmSums r.statements).1 (strOr r.reportedCurrency "USD") fx) else none) ∧
      cd.earnings = (if (ttmSums r.statements).2.1 ≠ 0 then
        some (toUSD (ttmSums r.statements).2.1 (strOr r.reportedCurrency "USD") fx) else none) ∧
      cd.operatingMargin = (if 0 < (ttmSums r.statements).1 then
        some ((ttmSums r.statements).2.2 / (ttmSums r.statements).1) else none) := by
  refine ⟨_, rfl, ?_, ?_, ?_⟩
  · dsimp only [assembleCompany]
    rw [if_pos hlen]
  · dsimp only [assembleCompany]
    rw [if_pos hlen]
  · dsimp only [assembleCompany]
    rw [if_pos hlen]

/-- C5 (corrected): for a symbol whose quarterly income fetch returned a
nonempty result, the TTM sums are taken over the returned entries; a
summed revenue `≤ 0` leaves both `revenue` and `operatingMargin` null;
a positive summed revenue records both; a nonzero summed net income —
negative included — is recorded as `earnings`; but a summed net income
of exactly `0` leaves `earnings` null (the source guards with
`if (netIncome !== 0)`), which is where the original claim fails. -/
theorem C5_ttm_calculation (sym : String) (quote : FMPQuote) (profile? : Option FMPProfile)
    (r : IncomeResult) (ratio? : Option FMPRatiosTTM) (growth? : Option FMPFinancialGrowth)
    (est? : Option FMPAnalystEstimate) (fx : List (String × ℚ))
    (hlen : r.statements.length > 0) :
    ∃ cd, assembleCompany sym (some quote) profile? (some r) ratio? growth? est? fx =
        some cd ∧
      ((ttmSums r.statements).1 ≤ 0 → cd.revenue = none ∧ cd.operatingMargin = none) ∧
      (0 < (ttmSums r.statements).1 →
        cd.revenue = some (toUSD (ttmSums r.statements).1 (strOr r.reportedCurrency "USD") fx) ∧
        cd.operatingMargin = some ((ttmSums r.statements).2.2 / (ttmSums r.statements).1)) ∧
      ((ttmSums r.statements).2.1 ≠ 0 →
        cd.earnings = some (toUSD (ttmSums r.statements).2.1 (strOr r.reportedCurrency "USD") fx)) ∧
      ((ttmSums r.statements).2.1 = 0 → cd.earnings = none) := by
  obtain ⟨cd, hcd, hrev, hearn, hmarg⟩ :=
    assembleCompany_income_fields sym quote profile? r ratio? growth? est? fx hlen
  refine ⟨cd, hcd, ?_, ?_, ?_, ?_⟩
  · intro h
    have hnot : ¬ 0 < (ttmSums r.statements).1 := not_lt.mpr h
    rw [hrev, hmarg, if_neg hnot, if_neg hnot]
    exact ⟨rfl, rfl⟩
  · intro h
    rw [hrev, hmarg, if_pos h, if_pos h]
    exact ⟨rfl, rfl⟩
  · intro h
    rw [hearn, if_pos h]
  · intro h
    rw [hearn, if_neg (by simpa using h)]

/-- One quarterly statement with the given revenue, net income and
operating income. -/
def stmtQ (rev ni oi : ℚ) : FMPIncomeStatement :=
  { symbol := "CCC", date := "2025-03-31", period := "Q1", revenue := rev,
    netIncome := ni, operatingIncome := oi, reportedCurrency := "USD" }

/-- An income result whose quarterly net incomes sum to exactly zero. -/
def zeroNIIncome : IncomeResult :=
  { statements := [stmtQ 10 5 1, stmtQ 10 (-5) 1], reportedCurrency := "USD" }

/-- A plain valid quote for the C5 scenario symbol. -/
def quoteCCC : FMPQuote :=
  { symbol := "CCC", name := "CCC Inc", price := 10, changePercentage := 0,
    marketCap := 2000000000, yearHigh := none }

/-- C5 counterexample: quarterly net incomes `5` and `-5` sum to exactly
`0`; the claim says the summed net income is recorded as earnings "even
if it is negative or zero", but the source's `if (netIncome !== 0)`
guard leaves `earnings` null for this symbol. -/
theorem C5_zero_net_income_counterexample :
    (ttmSums zeroNIIncome.statements).2.1 = 0 ∧
    ∃ cd, assembleCompany "CCC" (some quoteCCC) none (some zeroNIIncome) none none none
        [] = some cd ∧ cd.earnings = none := by
  have h0 : (ttmSums zeroNIIncome.statements).2.1 = 0 := by
    show (0 : ℚ) + 5 + -5 = 0
    norm_num
  obtain ⟨cd, hcd, _, hearn, _⟩ :=
    assembleCompany_income_fields "CCC" quoteCCC none zeroNIIncome none none none []
      (by decide)
  refine ⟨h0, cd, hcd, ?_⟩
  rw [hearn, if_neg (by simp [h0])]

/-- Witness for C5 at a concrete nonempty income result: negative summed
net income is recorded (converted through `toUSD`, a no-op for USD);
non-positive summed revenue leaves revenue and margin null. -/
theorem C5_ttm_calculation_witness :
    ∃ cd, assembleCompany "CCC" (some quoteCCC) none
        (some { statements := [stmtQ (-3) (-7) 1], reportedCurrency := "USD" })
        none none none [] = some cd ∧
      cd.revenue = none ∧ cd.operatingMargin = none ∧ cd.earnings = some (-7) := by
  have hsumrev : (ttmSums [stmtQ (-3) (-7) 1]).1 = -3 := by
    show (0 : ℚ) + -3 = -3
    norm_num
  have hsumni : (ttmSums [stmtQ (-3) (-7) 1]).2.1 = -7 := by
    show (0 : ℚ) + -7 = -7
    norm_num
  obtain ⟨cd, hcd, hle, _, hne, _⟩ := C5_ttm_calculation "CCC" quoteCCC none
    { statements := [stmtQ (-3) (-7) 1], reportedCurrency := "USD" } none none none []
    (by decide)
  refine ⟨cd, hcd, ?_, ?_⟩
  · exact (hle (by rw [hsumrev]; norm_num)).1
  · refine ⟨(hle (by rw [hsumrev]; norm_num)).2, ?_⟩
    rw [hne (by rw [hsumni]; norm_num), hsumni]
    rfl

/-! ### C9: structural faults are fatal -/

/-- C9 (confirmed): an empty screener result makes the full run throw
(`Except.error`) instead of proceeding with zero symbols; the triggered
HTTP surface converts a thrown error, or a zero-company success, into a
500 response carrying the error message and the elapsed duration while
writing nothing; consequently an empty screener result never overwrites
the previously stored snapshot through this surface. -/
theorem C9_structural_faults (env : FMPEnv) (token : Option String) (secret : String) :
    (env.screenerPages 0 = [] → 0 < env.screenerFuel →
      runFMPScraper env = .error "Failed to fetch stock list from company-screener") ∧
    (∀ e, scrapeRoute (some secret) secret (.error e) =
      { status := 500, errorMessage := some e, companiesCount := none,
        written := none, durationReported := true }) ∧
    (∀ ts, scrapeRoute (some secret) secret (.ok ([], ts)) =
      { status := 500, errorMessage := some "No companies returned from FMP scraper",
        companiesCount := none, written := none, durationReported := true }) ∧
    (env.screenerPages 0 = [] → 0 < env.screenerFuel →
      (scrapeRoute token secret (runFMPScraper env)).written = none ∧
      (token = some secret →
        (scrapeRoute token secret (runFMPScraper env)).status = 500 ∧
        (scrapeRoute token secret (runFMPScraper env)).errorMessage ≠ none ∧
        (scrapeRoute token secret (runFMPScraper env)).durationReported = true)) := by
  have herr : env.screenerPages 0 = [] → 0 < env.screenerFuel →
      runFMPScraper env = .error "Failed to fetch stock list from company-screener" := by
    intro h0 hfuel
    have hglobal : fetchGlobalStocks env.screenerPages env.screenerFuel =
        .error "Failed to fetch stock list from company-screener" := by
      cases hf : env.screenerFuel with
      | zero => omega
      | succ f =>
        unfold fetchGlobalStocks
        have hpages : fetchPages env.screenerPages 10000 (f + 1) 0 [] = [] := by
          unfold fetchPages
          simp [h0]
        rw [hpages]
        simp
    unfold runFMPScraper
    rw [hglobal]
  refine ⟨herr, fun e => ?_, fun ts => ?_, fun h0 hfuel => ?_⟩
  · simp [scrapeRoute]
  · simp [scrapeRoute]
  · rw [herr h0 hfuel]
    constructor
    · by_cases ht : token = some secret
      · simp [scrapeRoute, ht]
      · simp [scrapeRoute, ht]
    · intro ht
      simp [scrapeRoute, ht]

/-- An environment whose screener returns no rows at all. -/
def emptyScreenerEnv : FMPEnv :=
  { screenerPages := fun _ => []
    screenerFuel := 1
    quoteB := fun _ _ => .err (some 404) ""
    profileB := fun _ _ => .err (some 404) ""
    incomeB := fun _ _ => .err (some 404) ""
    ratiosB := fun _ _ => .err (some 404) ""
    growthB := fun _ _ => .err (some 404) ""
    estimatesB := fun _ _ => .err (some 404) ""
    fxRates := []
    now := "2025-01-01T00:00:00.000Z" }

/-- Witness for C9: with an empty screener the full run throws, and the
triggered surface answers 500 with an error message and writes
nothing. -/
theorem C9_structural_faults_witness :
    runFMPScraper emptyScreenerEnv =
      .error "Failed to fetch stock list from company-screener" ∧
    (scrapeRoute (some "s") "s" (runFMPScraper emptyScreenerEnv)).status = 500 ∧
    (scrapeRoute (some "s") "s" (runFMPScraper emptyScreenerEnv)).written = none ∧
    (scrapeRoute (some "s") "s" (runFMPScraper emptyScreenerEnv)).durationReported = true := by
  have h := C9_structural_faults emptyScreenerEnv (some "s") "s"
  have h1 := h.1 rfl (by decide)
  have h4 := h.2.2.2 rfl (by decide)
  exact ⟨h1, (h4.2 rfl).1, h4.1, (h4.2 rfl).2.2⟩

/-! ### C1: record emission -/

theorem enum_map_snd_comp {α β : Type} (l : List α) (f : α → β) :
    l.enum.map (fun p => f p.2) = l.map f := by
  rw [show (fun p : Nat × α => f p.2) = f ∘ Prod.snd from rfl, ← List.map_map,
    List.enum_map_snd]

theorem assembleCompany_some (t : String) (q : FMPQuote) (p? : Option FMPProfile)
    (i? : Option IncomeResult) (r? : Option FMPRatiosTTM) (g? : Option FMPFinancialGrowth)
    (e? : Option FMPAnalystEstimate) (fx : List (String × ℚ)) :
    ∃ cd, assembleCompany t (some q) p? i? r? g? e? fx = some cd ∧ cd.symbol = t :=
  ⟨_, rfl, rfl⟩

theorem filterMap_symbols (f : String → Option CompanyData) (l : List String)
    (h : ∀ t ∈ l, ∃ cd, f t = some cd ∧ cd.symbol = t) :
    (l.filterMap f).map (fun c => c.symbol) = l := by
  induction l with
  | nil => rfl
  | cons a t ih =>
    obtain ⟨cd, hfa, hsym⟩ := h a (List.mem_cons_self a t)
    simp only [List.filterMap_cons, hfa, List.map_cons, hsym]
    rw [ih (fun u hu => h u (List.mem_cons_of_mem a hu))]

theorem insertSorted_perm {α : Type} (le : α → α → Bool) (x : α) (l : List α) :
    (insertSorted le x l).Perm (x :: l) := by
  induction l with
  | nil => rfl
  | cons y t ih =>
    unfold insertSorted
    by_cases h : le y x = true
    · rw [if_pos h]
      exact (ih.cons y).trans (List.Perm.swap x y t)
    · rw [if_neg h]

theorem stableSortBy_perm_aux {α : Type} (le : α → α → Bool) :
    ∀ (l acc : List α), (l.foldl (fun acc x => insertSorted le x acc) acc).Perm (acc ++ l) := by
  intro l
  induction l with
  | nil => intro acc; simp
  | cons x t ih =>
    intro acc
    rw [List.foldl_cons]
    refine (ih (insertSorted le x acc)).trans ?_
    refine (List.Perm.append_right t (insertSorted_perm le x acc)).trans ?_
    exact List.perm_middle.symm

theorem stableSortBy_perm {α : Type} (le : α → α → Bool) (l : List α) :
    (stableSortBy le l).Perm l := stableSortBy_perm_aux le l []

theorem insertSorted_pairwise {α : Type} (le : α → α → Bool)
    (htrans : ∀ a b c, le a b = true → le b c = true → le a c = true)
    (htotal : ∀ a b, (le a b || le b a) = true) (x : α) (l : List α)
    (h : l.Pairwise (fun a b => le a b = true)) :
    (insertSorted le x l).Pairwise (fun a b => le a b = true) := by
  induction l with
  | nil => simp [insertSorted]
  | cons y t ih =>
    rcases List.pairwise_cons.mp h with ⟨hy, ht⟩
    unfold insertSorted
    by_cases hle : le y x = true
    · rw [if_pos hle]
      refine List.pairwise_cons.mpr ⟨?_, ih ht⟩
      intro z hz
      rcases (insertSorted_perm le x t).mem_iff.mp hz with hz2
      rcases List.mem_cons.mp hz2 with hz3 | hz3
      · rw [hz3]; exact hle
      · exact hy z hz3
    · rw [if_neg hle]
      have hxy : le x y = true := by
        rcases (Bool.or_eq_true _ _).mp (htotal y x) with h2 | h2
        · exact absurd h2 hle
        · exact h2
      refine List.pairwise_cons.mpr ⟨?_, h⟩
      intro z hz
      rcases List.mem_cons.mp hz with hz2 | hz2
      · rw [hz2]; exact hxy
      · exact htrans x y z hxy (hy z hz2)

theorem stableSortBy_pairwise_aux {α : Type} (le : α → α → Bool)
    (htrans : ∀ a b c, le a b = true → le b c = true → le a c = true)
    (htotal : ∀ a b, (le a b || le b a) = true) :
    ∀ (l acc : List α), acc.Pairwise (fun a b => le a b = true) →
      (l.foldl (fun acc x => insertSorted le x acc) acc).Pairwise
        (fun a b => le a b = true) := by
  intro l
  induction l with
  | nil => intro acc hacc; simpa using hacc
  | cons x t ih =>
    intro acc hacc
    rw [List.foldl_cons]
    exact ih _ (insertSorted_pairwise le htrans htotal x acc hacc)

theorem stableSortBy_pairwise {α : Type} (le : α → α → Bool)
    (htrans : ∀ a b c, le a b = true → le b c = true → le a c = true)
    (htotal : ∀ a b, (le a b || le b a) = true) (l : List α) :
    (stableSortBy le l).Pairwise (fun a b => le a b = true) :=
  stableSortBy_pairwise_aux le htrans htotal l [] List.Pairwise.nil

theorem sortAndRank_symbols (l : List CompanyData) (ts : String) :
    ((sortAndRank l ts).map (fun c => c.symbol)).Perm (l.map (fun c => c.symbol)) := by
  unfold sortAndRank
  rw [List.map_map,
    show ((fun c : DbCompany => c.symbol) ∘ fun p : Nat × CompanyData =>
      toDbCompany p.2 (p.1 + 1) ts) = (fun p : Nat × CompanyData => p.2.symbol) from rfl,
    enum_map_snd_comp]
  exact (stableSortBy_perm mcDescCD l).map _

theorem fullRunCompanies_symbols (env : FMPEnv) (allSymbols : List String) :
    (fullRunCompanies env allSymbols).map (fun c => c.symbol) =
      allSymbols.filter (validFilter (processSymbolsBatch allSymbols env.quoteB)) := by
  unfold fullRunCompanies assembleAll
  apply filterMap_symbols
  intro t ht
  have hq := (List.mem_filter.mp ht).2
  unfold validFilter at hq
  cases hmq : mapGet (processSymbolsBatch allSymbols env.quoteB) t with
  | none => rw [hmq] at hq; simp at hq
  | some q =>
    exact assembleCompany_some t q _ _ _ _ _ _

/-- C1 (corrected): for every symbol of the resolved universe of a
completed full run, a record is emitted if and only if the quote
retries ended in a quote with `marketCap ≥ 1_000_000_000` — the actual
filter of the source — rather than `marketCap > 0` as claimed. -/
theorem C1_record_emission (env : FMPEnv) (univ : List String)
    (cs : List DbCompany) (ts : String)
    (huniv : fetchGlobalStocks env.screenerPages env.screenerFuel = Except.ok univ)
    (hrun : runFMPScraper env = Except.ok (cs, ts)) (s : String) (hs : s ∈ univ) :
    (∃ c ∈ cs, c.symbol = s) ↔
    (∃ q, eventualResult env.quoteB s = some q ∧ (1000000000 : ℚ) ≤ q.marketCap) := by
  have hshape : runFMPScraper env =
      Except.ok (sortAndRank (fullRunCompanies env univ) env.now, env.now) := by
    unfold runFMPScraper
    rw [huniv]
  rw [hshape] at hrun
  injection hrun with hpair
  have hcs : cs = sortAndRank (fullRunCompanies env univ) env.now :=
    (congrArg Prod.fst hpair).symm
  subst hcs
  rw [show (∃ c ∈ sortAndRank (fullRunCompanies env univ) env.now, c.symbol = s) ↔
      s ∈ (sortAndRank (fullRunCompanies env univ) env.now).map (fun c => c.symbol)
    from (List.mem_map).symm]
  rw [(sortAndRank_symbols (fullRunCompanies env univ) env.now).mem_iff]
  rw [fullRunCompanies_symbols env univ]
  rw [List.mem_filter]
  have hget : mapGet (processSymbolsBatch univ env.quoteB) s =
      eventualResult env.quoteB s := processSymbolsBatch_get env.quoteB univ s hs
  unfold validFilter
  rw [hget]
  cases hev : eventualResult env.quoteB s with
  | none =>
    simp [hs]
  | some q =>
    simp only [hs, true_and]
    constructor
    · intro h
      rcases (Bool.and_eq_true _ _).mp h with ⟨-, hle⟩
      exact ⟨q, rfl, of_decide_eq_true hle⟩
    · rintro ⟨q2, hq2, hle⟩
      injection hq2 with hq2
      subst hq2
      have hne : q.marketCap ≠ 0 := by
        intro h0
        rw [h0] at hle
        norm_num at hle
      rw [Bool.and_eq_true]
      exact ⟨by simpa using hne, decide_eq_true hle⟩

/-- The quote used by the C1 counterexample: retrieved successfully,
with a positive market cap below one billion. -/
def quoteAAAsmall : FMPQuote :=
  { symbol := "AAA", name := "AAA Inc", price := 10, changePercentage := 0,
    marketCap := 5, yearHigh := none }

/-- An environment whose screener returns only `AAA`, whose quote fetch
succeeds for `AAA` with market cap `5`, and whose other fetches 404. -/
def smallCapEnv : FMPEnv :=
  { screenerPages := fun p => if p = 0 then ["AAA"] else []
    screenerFuel := 2
    quoteB := fun s _ =>
      if s = "AAA" then .ok (some quoteAAAsmall) else .err (some 404) ""
    profileB := fun _ _ => .err (some 404) ""
    incomeB := fun _ _ => .err (some 404) ""
    ratiosB := fun _ _ => .err (some 404) ""
    growthB := fun _ _ => .err (some 404) ""
    estimatesB := fun _ _ => .err (some 404) ""
    fxRates := []
    now := "T0" }

/-- C1 counterexample: symbol `AAA` is in the universe and its quote was
retrieved with market cap `5 > 0`, so the claim demands a record; the
run emits none, because the source filter requires
`marketCap >= 1_000_000_000`. -/
theorem C1_record_emission_counterexample :
    eventualResult smallCapEnv.quoteB "AAA" = some quoteAAAsmall ∧
    (0 : ℚ) < quoteAAAsmall.marketCap ∧
    runFMPScraper smallCapEnv = Except.ok ([], "T0") := by
  refine ⟨rfl, by norm_num [quoteAAAsmall], ?_⟩
  rfl

/-- Witness for C1 at the counterexample environment: the emission
equivalence instantiated at symbol `AAA`, whose both sides are false
(`5 < 10^9`). -/
theorem C1_record_emission_witness :
    (∃ c ∈ ([] : List DbCompany), c.symbol = "AAA") ↔
    (∃ q, eventualResult smallCapEnv.quoteB "AAA" = some q ∧
      (1000000000 : ℚ) ≤ q.marketCap) :=
  C1_record_emission smallCapEnv ("AAA" :: SUPPLEMENTAL_SYMBOLS) [] "T0" rfl rfl "AAA"
    (List.mem_cons_self _ _)

/-! ### C2: rank totality -/

theorem pairwise_enumFrom {α : Type} {R : α → α → Prop} :
    ∀ (n : Nat) (l : List α), l.Pairwise R →
      (List.enumFrom n l).Pairwise (fun p q => R p.2 q.2)
  | _, [], _ => List.Pairwise.nil
  | n, a :: t, h => by
    rw [List.enumFrom_cons]
    rcases List.pairwise_cons.mp h with ⟨ha, ht⟩
    refine List.pairwise_cons.mpr ⟨?_, pairwise_enumFrom (n + 1) t ht⟩
    rintro ⟨i, x⟩ hp
    obtain ⟨-, -, hx⟩ := List.mem_enumFrom hp
    rw [hx]
    exact ha _ (List.getElem_mem _)

theorem sortAndRank_ranks (l : List CompanyData) (ts : String) :
    (sortAndRank l ts).map (fun c => c.rank) =
      (List.range' 1 (sortAndRank l ts).length).map some := by
  unfold sortAndRank
  rw [List.map_map, List.length_map, List.enum_length,
    show ((fun c : DbCompany => c.rank) ∘ fun p : Nat × CompanyData =>
      toDbCompany p.2 (p.1 + 1) ts) = (fun p : Nat × CompanyData => some (p.1 + 1)) from rfl,
    show (fun p : Nat × CompanyData => some (p.1 + 1)) =
      (fun i : Nat => some (i + 1)) ∘ Prod.fst from rfl,
    ← List.map_map, List.enum_map_fst, List.range'_eq_map_range, List.map_map]
  exact List.map_congr_left (fun i _ => by simp [Nat.add_comm])

theorem sortAndRank_sorted (l : List CompanyData) (ts : String) :
    (sortAndRank l ts).Pairwise
      (fun a b => b.market_cap.getD 0 ≤ a.market_cap.getD 0) := by
  unfold sortAndRank
  rw [List.pairwise_map]
  have htrans : ∀ a b c : CompanyData, mcDescCD a b = true → mcDescCD b c = true →
      mcDescCD a c = true := by
    intro a b c hab hbc
    unfold mcDescCD at hab hbc ⊢
    exact decide_eq_true (le_trans (of_decide_eq_true hbc) (of_decide_eq_true hab))
  have htotal : ∀ a b : CompanyData, (mcDescCD a b || mcDescCD b a) = true := by
    intro a b
    unfold mcDescCD
    rcases le_total (b.marketCap.getD 0) (a.marketCap.getD 0) with h | h
    · simp [h]
    · simp [h]
  have hsorted := stableSortBy_pairwise mcDescCD htrans htotal l
  have := pairwise_enumFrom 0 (stableSortBy mcDescCD l) hsorted
  refine this.imp ?_
  intro p q h
  exact of_decide_eq_true h

/-- C2 (corrected): the full run's output carries the dense rank
sequence `1, …, N` in output order (so the rank set is exactly
`{1, …, N}`, no duplicates, no gaps), and market cap (null as 0) is
non-increasing — not strictly decreasing — in rank order; strict
decrease additionally holds whenever all market caps are distinct. -/
theorem C2_rank_totality (env : FMPEnv) (cs : List DbCompany) (ts : String)
    (hrun : runFMPScraper env = Except.ok (cs, ts)) :
    cs.map (fun c => c.rank) = (List.range' 1 cs.length).map some ∧
    cs.Pairwise (fun a b => b.market_cap.getD 0 ≤ a.market_cap.getD 0) ∧
    ((cs.map (fun c => c.market_cap.getD 0)).Nodup →
      cs.Pairwise (fun a b => b.market_cap.getD 0 < a.market_cap.getD 0)) := by
  cases hg : fetchGlobalStocks env.screenerPages env.screenerFuel with
  | error e =>
    unfold runFMPScraper at hrun
    rw [hg] at hrun
    exact absurd hrun (by simp)
  | ok univ =>
    have hshape : runFMPScraper env =
        Except.ok (sortAndRank (fullRunCompanies env univ) env.now, env.now) := by
      unfold runFMPScraper
      rw [hg]
    rw [hshape] at hrun
    injection hrun with hpair
    have hcs : cs = sortAndRank (fullRunCompanies env univ) env.now :=
      (congrArg Prod.fst hpair).symm
    subst hcs
    refine ⟨sortAndRank_ranks _ _, sortAndRank_sorted _ _, ?_⟩
    intro hnd
    have hne : (sortAndRank (fullRunCompanies env univ) env.now).Pairwise
        (fun a b => a.market_cap.getD 0 ≠ b.market_cap.getD 0) := by
      rw [← List.pairwise_map]
      exact hnd
    exact (List.Pairwise.and (sortAndRank_sorted _ _) hne).imp
      (fun h => lt_of_le_of_ne h.1 (fun he => h.2 he.symm))

/-- A valid quote with a two-billion market cap for the tie scenario. -/
def tieQuote (s n : String) : FMPQuote :=
  { symbol := s, name := n, price := 10, changePercentage := 0,
    marketCap := 2000000000, yearHigh := none }

/-- An environment whose screener returns `AAA` and `BBB`, both with
valid quotes of identical market cap, all other fetches 404. -/
def tieEnv : FMPEnv :=
  { screenerPages := fun p => if p = 0 then ["AAA", "BBB"] else []
    screenerFuel := 2
    quoteB := fun s _ =>
      if s = "AAA" then .ok (some (tieQuote "AAA" "AAA Inc"))
      else if s = "BBB" then .ok (some (tieQuote "BBB" "BBB Inc"))
      else .err (some 404) ""
    profileB := fun _ _ => .err (some 404) ""
    incomeB := fun _ _ => .err (some 404) ""
    ratiosB := fun _ _ => .err (some 404) ""
    growthB := fun _ _ => .err (some 404) ""
    estimatesB := fun _ _ => .err (some 404) ""
    fxRates := []
    now := "T0" }

/-- The snapshot record the tie scenario produces for a symbol. -/
def tieDb (s n : String) (r : Nat) : DbCompany :=
  { symbol := s, name := n, rank := some r, market_cap := some 2000000000,
    price := some 10, week_52_high := none, daily_change_percent := some 0,
    earnings := none, revenue := none, pe_ratio := none, ttm_eps := none,
    forward_pe := none, forward_eps := none, forward_eps_date := none,
    dividend_percent := none, operating_margin := none, revenue_growth_5y := none,
    revenue_growth_3y := none, eps_growth_5y := none, eps_growth_3y := none,
    country := "US", last_updated := "T0" }

/-- C2 counterexample: two emitted records tie at market cap
`2·10^9`; they receive the distinct ranks 1 and 2, so market cap is not
strictly decreasing in rank order. -/
theorem C2_strict_decrease_counterexample :
    runFMPScraper tieEnv =
      Except.ok ([tieDb "AAA" "AAA Inc" 1, tieDb "BBB" "BBB Inc" 2], "T0") ∧
    (tieDb "AAA" "AAA Inc" 1).rank = some 1 ∧
    (tieDb "BBB" "BBB Inc" 2).rank = some 2 ∧
    ¬ ((tieDb "BBB" "BBB Inc" 2).market_cap.getD 0 <
        (tieDb "AAA" "AAA Inc" 1).market_cap.getD 0) := by
  refine ⟨rfl, rfl, rfl, ?_⟩
  norm_num [tieDb]

/-- Witness for C2 at the tie environment: dense ranks `[1, 2]` and
non-increasing market caps on a concrete two-record run. -/
theorem C2_rank_totality_witness :
    ([tieDb "AAA" "AAA Inc" 1, tieDb "BBB" "BBB Inc" 2].map (fun c => c.rank) =
      (List.range' 1 2).map some) ∧
    [tieDb "AAA" "AAA Inc" 1, tieDb "BBB" "BBB Inc" 2].Pairwise
      (fun a b => b.market_cap.getD 0 ≤ a.market_cap.getD 0) := by
  have h := C2_rank_totality tieEnv [tieDb "AAA" "AAA Inc" 1, tieDb "BBB" "BBB Inc" 2]
    "T0" rfl
  exact ⟨h.1, h.2.1⟩

/-! ### Partial-update infrastructure -/

theorem toCompanyMap_eq_aux :
    ∀ (l : List DbCompany) (init : List (String × DbCompany)),
      (∀ c ∈ l, init.any (fun p => p.1 == c.symbol) = false) →
      (l.map (fun c => c.symbol)).Nodup →
      l.foldl (fun m c => mapSet m c.symbol c) init =
        init ++ l.map (fun c => (c.symbol, c)) := by
  intro l
  induction l with
  | nil => intro init _ _; simp
  | cons c t ih =>
    intro init hinit hnd
    rw [List.map_cons, List.nodup_cons] at hnd
    rw [List.foldl_cons]
    have hset : mapSet init c.symbol c = init ++ [(c.symbol, c)] := by
      unfold mapSet
      rw [if_neg (by simp [hinit c (List.mem_cons_self c t)])]
    rw [hset, ih (init ++ [(c.symbol, c)]) ?_ hnd.2, List.append_assoc,
      List.singleton_append, List.map_cons]
    intro c2 hc2
    rw [List.any_append]
    have h1 : init.any (fun p => p.1 == c2.symbol) = false :=
      hinit c2 (List.mem_cons_of_mem c hc2)
    have h2 : (c.symbol == c2.symbol) = false := by
      rw [Bool.eq_false_iff]
      simp
      intro he
      exact hnd.1 (he ▸ List.mem_map_of_mem (fun x => x.symbol) hc2)
    simp [h1, h2]

/-- Under unique symbols, the lookup map built by the partial updates is
just the snapshot keyed by symbol, in order. -/
theorem toCompanyMap_eq (l : List DbCompany)
    (hnd : (l.map (fun c => c.symbol)).Nodup) :
    toCompanyMap l = l.map (fun c => (c.symbol, c)) := by
  unfold toCompanyMap
  rw [toCompanyMap_eq_aux l [] (fun c _ => rfl) hnd]
  rfl

theorem find?_symbol_map (l : List DbCompany) (f : DbCompany → DbCompany)
    (hf : ∀ x ∈ l, (f x).symbol = x.symbol)
    (hnd : (l.map (fun c => c.symbol)).Nodup) (c : DbCompany) (hc : c ∈ l) :
    (l.map f).find? (fun x => x.symbol == c.symbol) = some (f c) := by
  induction l with
  | nil => cases hc
  | cons a t ih =>
    rw [List.map_cons, List.nodup_cons] at hnd
    rw [List.map_cons, List.find?_cons]
    rcases List.mem_cons.mp hc with h | h
    · subst h
      rw [show ((f c).symbol == c.symbol) = true by
        simp [hf c (List.mem_cons_self c t)]]
    · have hne : ((f a).symbol == c.symbol) = false := by
        rw [Bool.eq_false_iff]
        rw [hf a (List.mem_cons_self a t)]
        simp
        intro he
        exact hnd.1 (he ▸ List.mem_map_of_mem (fun x => x.symbol) h)
      rw [hne]
      exact ih (fun x hx => hf x (List.mem_cons_of_mem a hx)) hnd.2 h

theorem find?_symbol_self (l : List DbCompany)
    (hnd : (l.map (fun c => c.symbol)).Nodup) (c : DbCompany) (hc : c ∈ l) :
    l.find? (fun x => x.symbol == c.symbol) = some c := by
  have h := find?_symbol_map l (fun x => x) (fun _ _ => rfl) hnd c hc
  simpa using h

/-- Per-company outputs of the value-mapped partial-update categories,
looked up by symbol through the restamp stage. -/
theorem valueMap_output_find? (existing : List DbCompany)
    (f : String → DbCompany → DbCompany)
    (hf : ∀ s x, (f s x).symbol = x.symbol)
    (hnd : (existing.map (fun x => x.symbol)).Nodup) (c : DbCompany)
    (hc : c ∈ existing) :
    (existing.map (fun x => f x.symbol x)).find? (fun y => y.symbol == c.symbol) =
      some (f c.symbol c) :=
  find?_symbol_map existing (fun x => f x.symbol x) (fun x _ => hf x.symbol x) hnd c hc

/-! Step functions preserve the symbol field. -/

theorem forwardPEStep_symbol (fx : List (String × ℚ)) (inc : List (String × IncomeResult))
    (est : List (String × FMPAnalystEstimate)) (s : String) (c : DbCompany) :
    (forwardPEStep fx inc est s c).symbol = c.symbol := by
  unfold forwardPEStep
  repeat' split
  all_goals rfl

theorem quotesStep_symbol (quotes : List (String × FMPQuote)) (s : String)
    (c : DbCompany) : (quotesStep quotes s c).symbol = c.symbol := by
  unfold quotesStep
  repeat' split
  all_goals rfl

theorem week52Step_symbol (quotes : List (String × FMPQuote)) (s : String)
    (c : DbCompany) : (week52Step quotes s c).symbol = c.symbol := by
  unfold week52Step
  repeat' split
  all_goals rfl

theorem financialsStep_symbol (fx : List (String × ℚ))
    (inc : List (String × IncomeResult)) (rat : List (String × FMPRatiosTTM))
    (s : String) (c : DbCompany) : (financialsStep fx inc rat s c).symbol = c.symbol := by
  unfold financialsStep
  dsimp only
  repeat' split
  all_goals rfl

theorem growthStep_symbol (growth : List (String × FMPFinancialGrowth)) (s : String)
    (c : DbCompany) : (growthStep growth s c).symbol = c.symbol := by
  unfold growthStep
  repeat' split
  all_goals rfl

theorem peRatioStep_symbol (rat : List (String × FMPRatiosTTM)) (s : String)
    (c : DbCompany) : (peRatioStep rat s c).symbol = c.symbol := by
  unfold peRatioStep
  repeat' split
  all_goals rfl

theorem currencyFixStep_symbol (fx : List (String × ℚ))
    (inc : List (String × IncomeResult)) (est : List (String × FMPAnalystEstimate))
    (s : String) (c : DbCompany) :
    ((currencyFixStep fx inc est s c).1).symbol = c.symbol := by
  unfold currencyFixStep
  dsimp only
  repeat' split
  all_goals rfl

/-! Step functions are the identity when the category's fetch produced
no result for the symbol. -/

theorem forwardPEStep_none (fx : List (String × ℚ)) (inc : List (String × IncomeResult))
    (est : List (String × FMPAnalystEstimate)) (s : String) (c : DbCompany)
    (h : mapGet est s = none) : forwardPEStep fx inc est s c = c := by
  unfold forwardPEStep
  rw [h]

theorem quotesStep_none (quotes : List (String × FMPQuote)) (s : String) (c : DbCompany)
    (h : mapGet quotes s = none) : quotesStep quotes s c = c := by
  unfold quotesStep
  rw [h]

theorem week52Step_none (quotes : List (String × FMPQuote)) (s : String) (c : DbCompany)
    (h : mapGet quotes s = none) : week52Step quotes s c = c := by
  unfold week52Step
  rw [h]

theorem financialsStep_none (fx : List (String × ℚ)) (inc : List (String × IncomeResult))
    (rat : List (String × FMPRatiosTTM)) (s : String) (c : DbCompany)
    (hi : mapGet inc s = none) (hr : mapGet rat s = none) :
    financialsStep fx inc rat s c = c := by
  unfold financialsStep
  rw [hi, hr]

theorem growthStep_none (growth : List (String × FMPFinancialGrowth)) (s : String)
    (c : DbCompany) (h : mapGet growth s = none) : growthStep growth s c = c := by
  unfold growthStep
  rw [h]

theorem peRatioStep_none (rat : List (String × FMPRatiosTTM)) (s : String) (c : DbCompany)
    (h : mapGet rat s = none) : peRatioStep rat s c = c := by
  unfold peRatioStep
  rw [h]

theorem currencyFixStep_none (fx : List (String × ℚ)) (inc : List (String × IncomeResult))
    (est : List (String × FMPAnalystEstimate)) (s : String) (c : DbCompany)
    (h : mapGet inc s = none) : currencyFixStep fx inc est s c = (c, 0, 0) := by
  unfold currencyFixStep
  rw [h]

theorem currencyFixStep_usd (fx : List (String × ℚ)) (inc : List (String × IncomeResult))
    (est : List (String × FMPAnalystEstimate)) (s : String) (c : DbCompany)
    (r : IncomeResult) (h : mapGet inc s = some r) (husd : r.reportedCurrency = "USD") :
    currencyFixStep fx inc est s c = (c, 0, 1) := by
  unfold currencyFixStep
  rw [h]
  dsimp only
  rw [if_pos husd]

theorem currencyFixStep_nonusd (fx : List (String × ℚ))
    (inc : List (String × IncomeResult)) (est : List (String × FMPAnalystEstimate))
    (s : String) (c : DbCompany) (r : IncomeResult)
    (h : mapGet inc s = some r) (hne : r.reportedCurrency ≠ "USD") :
    (currencyFixStep fx inc est s c).2 = (1, 0) := by
  unfold currencyFixStep
  rw [h]
  dsimp only
  rw [if_neg hne]

theorem currencyFixFold_aux (step : String → DbCompany → DbCompany × Nat × Nat) :
    ∀ (m : List (String × DbCompany)) (acc : List (String × DbCompany) × Nat × Nat),
      m.foldl (fun acc p =>
        let r := step p.1 p.2
        (acc.1 ++ [(p.1, r.1)], acc.2.1 + r.2.1, acc.2.2 + r.2.2)) acc =
      (acc.1 ++ m.map (fun p => (p.1, (step p.1 p.2).1)),
       acc.2.1 + (m.map (fun p => (step p.1 p.2).2.1)).sum,
       acc.2.2 + (m.map (fun p => (step p.1 p.2).2.2)).sum) := by
  intro m
  induction m with
  | nil => intro acc; simp
  | cons p t ih =>
    intro acc
    rw [List.foldl_cons, ih]
    simp [Nat.add_assoc]

/-- The `currency_fix` loop, closed form: the value-mapped records and
the two counters as sums of per-company deltas. -/
theorem currencyFixFold_eq (step : String → DbCompany → DbCompany × Nat × Nat)
    (m : List (String × DbCompany)) :
    currencyFixFold step m =
      (m.map (fun p => (p.1, (step p.1 p.2).1)),
       (m.map (fun p => (step p.1 p.2).2.1)).sum,
       (m.map (fun p => (step p.1 p.2).2.2)).sum) := by
  unfold currencyFixFold
  rw [currencyFixFold_aux]
  simp

theorem sum_map_ite_eq_countP {α : Type} (l : List α) (f : α → Nat) (p : α → Bool)
    (hf : ∀ x ∈ l, f x = if p x then 1 else 0) : (l.map f).sum = l.countP p := by
  induction l with
  | nil => rfl
  | cons a t ih =>
    rw [List.map_cons, List.sum_cons, List.countP_cons, hf a (List.mem_cons_self a t),
      ih (fun x hx => hf x (List.mem_cons_of_mem a hx))]
    exact Nat.add_comm _ _

/-! ### C7: currency_fix leaves USD companies untouched -/

/-- C7 (confirmed): in the `currency_fix` category, a company whose
re-derived reporting currency (from its fetched income result) is
`"USD"` keeps every field except the common `last_updated` re-stamp —
in particular all monetary fields (`revenue`, `earnings`,
`operating_margin`, `forward_eps`, `forward_pe`) are byte-identical —
and its per-company counter delta is `(updated, skipped) = (0, 1)`;
run-wide, the `skippedUSD` counter counts exactly the companies whose
fetched income result reports `"USD"` and the `updated` counter exactly
the non-USD ones, and this company falls in the former count, not the
latter. -/
theorem C7_currency_fix_usd_untouched (env : FMPEnv) (existing : List DbCompany)
    (lu : String) (c : DbCompany)
    (hnd : (existing.map (fun x => x.symbol)).Nodup) (hc : c ∈ existing)
    (r : IncomeResult)
    (hinc : eventualResult env.incomeB c.symbol = some r)
    (husd : r.reportedCurrency = "USD") :
    ((runPartialUpdate .currency_fix env existing lu).1.find?
        (fun x => x.symbol == c.symbol) = some { c with last_updated := env.now }) ∧
    ((currencyFixStep env.fxRates
        (processSymbolsBatch (existing.map (fun x => x.symbol)) env.incomeB)
        (processSymbolsBatch (existing.map (fun x => x.symbol)) env.estimatesB)
        c.symbol c).2 = (0, 1)) ∧
    ((currencyFixFold (currencyFixStep env.fxRates
        (processSymbolsBatch (existing.map (fun x => x.symbol)) env.incomeB)
        (processSymbolsBatch (existing.map (fun x => x.symbol)) env.estimatesB))
        (toCompanyMap existing)).2.2 =
      existing.countP (fun x =>
        match eventualResult env.incomeB x.symbol with
        | none => false
        | some r2 => r2.reportedCurrency == "USD")) ∧
    ((currencyFixFold (currencyFixStep env.fxRates
        (processSymbolsBatch (existing.map (fun x => x.symbol)) env.incomeB)
        (processSymbolsBatch (existing.map (fun x => x.symbol)) env.estimatesB))
        (toCompanyMap existing)).2.1 =
      existing.countP (fun x =>
        match eventualResult env.incomeB x.symbol with
        | none => false
        | some r2 => !(r2.reportedCurrency == "USD"))) ∧
    ((match eventualResult env.incomeB c.symbol with
      | none => false
      | some r2 => r2.reportedCurrency == "USD") = true) ∧
    ((match eventualResult env.incomeB c.symbol with
      | none => false
      | some r2 => !(r2.reportedCurrency == "USD")) = false) := by
  have hget : ∀ x ∈ existing,
      mapGet (processSymbolsBatch (existing.map (fun y => y.symbol)) env.incomeB) x.symbol =
        eventualResult env.incomeB x.symbol :=
    fun x hx => processSymbolsBatch_get env.incomeB _ _
      (List.mem_map_of_mem (fun y => y.symbol) hx)
  have hstep : currencyFixStep env.fxRates
      (processSymbolsBatch (existing.map (fun x => x.symbol)) env.incomeB)
      (processSymbolsBatch (existing.map (fun x => x.symbol)) env.estimatesB)
      c.symbol c = (c, 0, 1) :=
    currencyFixStep_usd _ _ _ _ _ r (by rw [hget c hc]; exact hinc) husd
  refine ⟨?_, ?_, ?_, ?_, ?_, ?_⟩
  · have hout : (runPartialUpdate .currency_fix env existing lu).1 =
        existing.map (fun x =>
          { (currencyFixStep env.fxRates
              (processSymbolsBatch (existing.map (fun y => y.symbol)) env.incomeB)
              (processSymbolsBatch (existing.map (fun y => y.symbol)) env.estimatesB)
              x.symbol x).1 with last_updated := env.now }) := by
      unfold runPartialUpdate
      dsimp only
      rw [currencyFixFold_eq]
      dsimp only
      rw [toCompanyMap_eq existing hnd, List.map_map, List.map_map, List.map_map]
      rfl
    rw [hout]
    rw [find?_symbol_map existing
      (fun x => { (currencyFixStep env.fxRates
          (processSymbolsBatch (existing.map (fun y => y.symbol)) env.incomeB)
          (processSymbolsBatch (existing.map (fun y => y.symbol)) env.estimatesB)
          x.symbol x).1 with last_updated := env.now })
      (fun x _ => currencyFixStep_symbol _ _ _ x.symbol x) hnd c hc]
    dsimp only
    rw [hstep]
  · rw [hstep]
  · rw [currencyFixFold_eq]
    dsimp only
    rw [toCompanyMap_eq existing hnd, List.map_map]
    apply sum_map_ite_eq_countP
    intro x hx
    dsimp only [Function.comp]
    cases hev : eventualResult env.incomeB x.symbol with
    | none =>
      rw [currencyFixStep_none _ _ _ _ _ (by rw [hget x hx]; exact hev)]
      simp
    | some r2 =>
      by_cases h2 : r2.reportedCurrency = "USD"
      · rw [currencyFixStep_usd _ _ _ _ _ r2 (by rw [hget x hx]; exact hev) h2]
        simp [h2]
      · rw [show (currencyFixStep env.fxRates
            (processSymbolsBatch (existing.map (fun y => y.symbol)) env.incomeB)
            (processSymbolsBatch (existing.map (fun y => y.symbol)) env.estimatesB)
            x.symbol x).2.2 = ((1 : Nat), (0 : Nat)).2 from
          congrArg Prod.snd (currencyFixStep_nonusd _ _ _ _ _ r2
            (by rw [hget x hx]; exact hev) h2)]
        simp [h2]
  · rw [currencyFixFold_eq]
    dsimp only
    rw [toCompanyMap_eq existing hnd, List.map_map]
    apply sum_map_ite_eq_countP
    intro x hx
    dsimp only [Function.comp]
    cases hev : eventualResult env.incomeB x.symbol with
    | none =>
      rw [currencyFixStep_none _ _ _ _ _ (by rw [hget x hx]; exact hev)]
      simp
    | some r2 =>
      by_cases h2 : r2.reportedCurrency = "USD"
      · rw [currencyFixStep_usd _ _ _ _ _ r2 (by rw [hget x hx]; exact hev) h2]
        simp [h2]
      · rw [show (currencyFixStep env.fxRates
            (processSymbolsBatch (existing.map (fun y => y.symbol)) env.incomeB)
            (processSymbolsBatch (existing.map (fun y => y.symbol)) env.estimatesB)
            x.symbol x).2.1 = ((1 : Nat), (0 : Nat)).1 from
          congrArg Prod.fst (currencyFixStep_nonusd _ _ _ _ _ r2
            (by rw [hget x hx]; exact hev) h2)]
        simp [h2]
  · rw [hinc]
    simp [husd]
  · rw [hinc]
    simp [husd]

/-- A concrete snapshot record for the currency-fix scenario symbol. -/
def dbEEE : DbCompany :=
  { symbol := "EEE", name := "EEE Corp", rank := some 1, market_cap := some 3000000000,
    price := some 20, week_52_high := none, daily_change_percent := some 0,
    earnings := some 7, revenue := some 100, pe_ratio := none, ttm_eps := none,
    forward_pe := some 12, forward_eps := some 2, forward_eps_date := some "2026-12-31",
    dividend_percent := none, operating_margin := some (1 / 10),
    revenue_growth_5y := none, revenue_growth_3y := none, eps_growth_5y := none,
    eps_growth_3y := none, country := "US", last_updated := "OLD" }

/-- An income result reporting in USD. -/
def usdIncome : IncomeResult :=
  { statements := [stmtQ 10 5 1], reportedCurrency := "USD" }

/-- An environment where only the income fetch for `EEE` succeeds
(reporting USD); the run timestamp is `"NEW"`. -/
def eeeEnv : FMPEnv :=
  { screenerPages := fun _ => []
    screenerFuel := 0
    quoteB := fun _ _ => .err (some 404) ""
    profileB := fun _ _ => .err (some 404) ""
    incomeB := fun s _ => if s = "EEE" then .ok (some usdIncome) else .err (some 404) ""
    ratiosB := fun _ _ => .err (some 404) ""
    growthB := fun _ _ => .err (some 404) ""
    estimatesB := fun _ _ => .err (some 404) ""
    fxRates := []
    now := "NEW" }

/-- Witness for C7: on a one-company snapshot whose income result
reports USD, the `currency_fix` run leaves every field of `EEE` except
`last_updated` unchanged, and its counter delta is skipped-not-updated. -/
theorem C7_currency_fix_usd_untouched_witness :
    ((runPartialUpdate .currency_fix eeeEnv [dbEEE] "OLDLU").1.find?
        (fun x => x.symbol == dbEEE.symbol) =
      some { dbEEE with last_updated := "NEW" }) ∧
    ((currencyFixStep eeeEnv.fxRates
        (processSymbolsBatch ([dbEEE].map (fun x => x.symbol)) eeeEnv.incomeB)
        (processSymbolsBatch ([dbEEE].map (fun x => x.symbol)) eeeEnv.estimatesB)
        dbEEE.symbol dbEEE).2 = (0, 1)) := by
  have h := C7_currency_fix_usd_untouched eeeEnv [dbEEE] "OLDLU" dbEEE (by simp)
    (List.mem_cons_self _ _) usdIncome rfl rfl
  exact ⟨h.1, h.2.1⟩

/-! ### C8: timestamp re-stamp -/

theorem restamped_mem (m : List (String × DbCompany)) (ts : String) (c : DbCompany)
    (hc : c ∈ (m.map (fun p => (p.1, { p.2 with last_updated := ts }))).map
      (fun p => p.2)) :
    c.last_updated = ts := by
  rcases List.mem_map.mp hc with ⟨p, hp, hcp⟩
  rcases List.mem_map.mp hp with ⟨q, hq, hpq⟩
  rw [← hcp, ← hpq]

/-- C8 (corrected): every partial-update run re-stamps `last_updated`
with the run timestamp on every record of the returned snapshot —
except a `new_symbols` run that finds no new supplemental symbols,
which returns the loaded snapshot and its old timestamp unchanged,
bypassing the re-stamp loop. -/
theorem C8_restamp_every_record (u : PartialUpdateType) (env : FMPEnv)
    (existing : List DbCompany) (lu : String)
    (hnot : ¬ (u = PartialUpdateType.new_symbols ∧
      SUPPLEMENTAL_SYMBOLS.filter
        (fun s => !((existing.map (fun c => c.symbol)).contains s)) = [])) :
    (∀ c ∈ (runPartialUpdate u env existing lu).1, c.last_updated = env.now) ∧
    (runPartialUpdate u env existing lu).2 = env.now := by
  cases u with
  | forward_pe =>
    constructor
    · intro c hc
      revert hc
      unfold runPartialUpdate
      dsimp only
      intro hc
      exact restamped_mem _ env.now c hc
    · rfl
  | quotes =>
    constructor
    · intro c hc
      revert hc
      unfold runPartialUpdate
      dsimp only
      intro hc
      exact restamped_mem _ env.now c hc
    · rfl
  | financials =>
    constructor
    · intro c hc
      revert hc
      unfold runPartialUpdate
      dsimp only
      intro hc
      exact restamped_mem _ env.now c hc
    · rfl
  | growth =>
    constructor
    · intro c hc
      revert hc
      unfold runPartialUpdate
      dsimp only
      intro hc
      exact restamped_mem _ env.now c hc
    · rfl
  | pe_ratio =>
    constructor
    · intro c hc
      revert hc
      unfold runPartialUpdate
      dsimp only
      intro hc
      exact restamped_mem _ env.now c hc
    · rfl
  | week_52_high =>
    constructor
    · intro c hc
      revert hc
      unfold runPartialUpdate
      dsimp only
      intro hc
      exact restamped_mem _ env.now c hc
    · rfl
  | currency_fix =>
    constructor
    · intro c hc
      revert hc
      unfold runPartialUpdate
      dsimp only
      intro hc
      exact restamped_mem _ env.now c hc
    · rfl
  | new_symbols =>
    by_cases hfil : SUPPLEMENTAL_SYMBOLS.filter
        (fun s => !((existing.map (fun c => c.symbol)).contains s)) = []
    · exact absurd ⟨rfl, hfil⟩ hnot
    · have hlen : ¬ (SUPPLEMENTAL_SYMBOLS.filter
          (fun s => !((existing.map (fun c => c.symbol)).contains s))).length = 0 := by
        simpa [List.length_eq_zero] using hfil
      constructor
      · intro c hc
        revert hc
        unfold runPartialUpdate
        dsimp only
        rw [if_neg hlen]
        intro hc
        exact restamped_mem _ env.now c hc
      · unfold runPartialUpdate
        dsimp only
        rw [if_neg hlen]

/-- A bare snapshot record with only a symbol, stamped `"OLD"`. -/
def baseDb (s : String) : DbCompany :=
  { symbol := s, name := s, rank := none, market_cap := none, price := none,
    week_52_high := none, daily_change_percent := none, earnings := none,
    revenue := none, pe_ratio := none, ttm_eps := none, forward_pe := none,
    forward_eps := none, forward_eps_date := none, dividend_percent := none,
    operating_margin := none, revenue_growth_5y := none, revenue_growth_3y := none,
    eps_growth_5y := none, eps_growth_3y := none, country := "US",
    last_updated := "OLD" }

/-- An environment where every fetch fails; run timestamp `"NEW"`. -/
def noneEnv : FMPEnv :=
  { screenerPages := fun _ => []
    screenerFuel := 0
    quoteB := fun _ _ => .err (some 404) ""
    profileB := fun _ _ => .err (some 404) ""
    incomeB := fun _ _ => .err (some 404) ""
    ratiosB := fun _ _ => .err (some 404) ""
    growthB := fun _ _ => .err (some 404) ""
    estimatesB := fun _ _ => .err (some 404) ""
    fxRates := []
    now := "NEW" }

/-- A snapshot already containing every supplemental symbol. -/
def allSuppSnapshot : List DbCompany := SUPPLEMENTAL_SYMBOLS.map baseDb

/-- C8 counterexample: a `new_symbols` run over a snapshot that already
contains every supplemental symbol takes the early return: the returned
snapshot is the loaded one, its records still stamped `"OLD"` although
the run timestamp is `"NEW"` — so not every partial-update run
re-stamps every record. -/
theorem C8_restamp_counterexample :
    runPartialUpdate .new_symbols noneEnv allSuppSnapshot "OLDLU" =
      (allSuppSnapshot, "OLDLU") ∧
    baseDb "TCEHY" ∈ allSuppSnapshot ∧
    (baseDb "TCEHY").last_updated = "OLD" ∧
    noneEnv.now = "NEW" ∧ ("OLD" : String) ≠ "NEW" := by
  refine ⟨rfl, List.mem_map_of_mem baseDb (List.mem_cons_self _ _), rfl, rfl, by decide⟩

/-- Witness for C8: a `quotes` run (not the excluded early-return case)
re-stamps the single record and the returned timestamp. -/
theorem C8_restamp_every_record_witness :
    (∀ c ∈ (runPartialUpdate .quotes eeeEnv [dbEEE] "OLDLU").1,
      c.last_updated = "NEW") ∧
    (runPartialUpdate .quotes eeeEnv [dbEEE] "OLDLU").2 = "NEW" :=
  C8_restamp_every_record .quotes eeeEnv [dbEEE] "OLDLU" (by simp)

/-! ### C10 infrastructure -/

/-- The per-category output of the non-rerank partial updates, fused
into one map over the snapshot. -/
theorem mapped_restamped_output (existing : List DbCompany)
    (hnd : (existing.map (fun x => x.symbol)).Nodup)
    (g : String → DbCompany → DbCompany) (ts : String) :
    (((toCompanyMap existing).map (fun p => (p.1, g p.1 p.2))).map
      (fun p => (p.1, { p.2 with last_updated := ts }))).map (fun p => p.2) =
    existing.map (fun x => { g x.symbol x with last_updated := ts }) := by
  rw [toCompanyMap_eq existing hnd, List.map_map, List.map_map, List.map_map]
  rfl

theorem exists_of_find? {l : List DbCompany} {s : String} {x : DbCompany}
    (h : l.find? (fun y => y.symbol == s) = some x) : ∃ y ∈ l, y.symbol = s :=
  ⟨x, List.mem_of_find?_eq_some h, by simpa using List.find?_some h⟩

theorem mapGet_pairing (l : List DbCompany) (s : String) :
    mapGet (l.map (fun c => (c.symbol, c))) s = l.find? (fun c => c.symbol == s) := by
  unfold mapGet
  rw [List.find?_map,
    show ((fun p : String × DbCompany => p.1 == s) ∘ fun c : DbCompany => (c.symbol, c)) =
      (fun c : DbCompany => c.symbol == s) from rfl]
  cases l.find? (fun c : DbCompany => c.symbol == s) <;> rfl

theorem toCompanyMap_get (existing : List DbCompany)
    (hnd : (existing.map (fun x => x.symbol)).Nodup) (c : DbCompany) (hc : c ∈ existing) :
    mapGet (toCompanyMap existing) c.symbol = some c := by
  rw [toCompanyMap_eq existing hnd, mapGet_pairing]
  exact find?_symbol_self existing hnd c hc

theorem assembleCompany_symbol (s : String) (q? : Option FMPQuote)
    (p? : Option FMPProfile) (i? : Option IncomeResult) (r? : Option FMPRatiosTTM)
    (g? : Option FMPFinancialGrowth) (e? : Option FMPAnalystEstimate)
    (fx : List (String × ℚ)) (cd : CompanyData)
    (h : assembleCompany s q? p? i? r? g? e? fx = some cd) : cd.symbol = s := by
  cases q? with
  | none => simp [assembleCompany] at h
  | some q =>
    obtain ⟨cd2, hcd2, hsym⟩ := assembleCompany_some s q p? i? r? g? e? fx
    rw [hcd2] at h
    injection h with h
    rw [← h]
    exact hsym

theorem newSymbolCompany_symbol (s : String) (q? : Option FMPQuote)
    (p? : Option FMPProfile) (i? : Option IncomeResult) (r? : Option FMPRatiosTTM)
    (g? : Option FMPFinancialGrowth) (e? : Option FMPAnalystEstimate)
    (fx : List (String × ℚ)) (ts : String) (c2 : DbCompany)
    (h : newSymbolCompany s q? p? i? r? g? e? fx ts = some c2) : c2.symbol = s := by
  unfold newSymbolCompany at h
  cases hq : assembleCompany s q? p? i? r? g? e? fx with
  | none => rw [hq] at h; simp at h
  | some cd =>
    rw [hq] at h
    injection h with h
    rw [← h]
    exact assembleCompany_symbol s q? p? i? r? g? e? fx cd hq

theorem foldl_get_untouched (valid : List String) (f : String → Option DbCompany)
    (init : List (String × DbCompany)) (k : String) (hk : ∀ s ∈ valid, s ≠ k) :
    mapGet (valid.foldl (fun m s =>
      match f s with
      | some c2 => mapSet m s c2
      | none => m) init) k = mapGet init k := by
  induction valid generalizing init with
  | nil => rfl
  | cons s t ih =>
    rw [List.foldl_cons]
    rw [ih _ (fun x hx => hk x (List.mem_cons_of_mem s hx))]
    cases hf : f s with
    | none => rfl
    | some c2 =>
      exact mapGet_mapSet_ne init s k c2 (fun he => hk s (List.mem_cons_self s t) he.symm)

theorem mapSet_keyInv (m : List (String × DbCompany)) (k : String) (v : DbCompany)
    (hinv : ∀ p ∈ m, p.2.symbol = p.1) (hv : v.symbol = k) :
    ∀ p ∈ mapSet m k v, p.2.symbol = p.1 := by
  intro p hp
  unfold mapSet at hp
  by_cases hany : m.any (fun p => p.1 == k) = true
  · rw [if_pos hany] at hp
    rcases List.mem_map.mp hp with ⟨q, hq, hqp⟩
    by_cases hqk : (q.1 == k) = true
    · rw [← hqp, if_pos hqk]
      exact hv
    · rw [← hqp, if_neg hqk]
      exact hinv q hq
  · rw [if_neg hany] at hp
    rcases List.mem_append.mp hp with h | h
    · exact hinv p h
    · rcases List.mem_singleton.mp h with h2
      rw [h2]
      exact hv

theorem mapSet_keys (m : List (String × DbCompany)) (k : String) (v : DbCompany) :
    (mapSet m k v).map (fun p => p.1) =
      if m.any (fun p => p.1 == k) then m.map (fun p => p.1)
      else m.map (fun p => p.1) ++ [k] := by
  unfold mapSet
  by_cases hany : m.any (fun p => p.1 == k) = true
  · rw [if_pos hany, if_pos hany, List.map_map]
    apply List.map_congr_left
    intro p _
    by_cases hp : (p.1 == k) = true
    · simp only [Function.comp]
      rw [if_pos hp]
      exact (eq_of_beq hp).symm
    · simp only [Function.comp]
      rw [if_neg hp]
  · rw [if_neg hany, if_neg hany, List.map_append]
    rfl

theorem mapSet_keys_nodup (m : List (String × DbCompany)) (k : String) (v : DbCompany)
    (h : (m.map (fun p => p.1)).Nodup) :
    ((mapSet m k v).map (fun p => p.1)).Nodup := by
  rw [mapSet_keys]
  by_cases hany : m.any (fun p => p.1 == k) = true
  · rw [if_pos hany]
    exact h
  · rw [if_neg hany]
    rw [List.nodup_append]
    refine ⟨h, List.nodup_singleton k, ?_⟩
    intro a ha hb
    rcases List.mem_singleton.mp hb with rfl
    rcases List.mem_map.mp ha with ⟨p, hp, hpa⟩
    have := (List.any_eq_false.mp (Bool.eq_false_iff.mpr hany)) p hp
    simp at this
    exact this (by rw [hpa])

theorem foldl_keyInv (valid : List String) (f : String → Option DbCompany)
    (hf : ∀ s c2, f s = some c2 → c2.symbol = s)
    (init : List (String × DbCompany)) (hinit : ∀ p ∈ init, p.2.symbol = p.1) :
    ∀ p ∈ (valid.foldl (fun m s =>
      match f s with
      | some c2 => mapSet m s c2
      | none => m) init), p.2.symbol = p.1 := by
  induction valid generalizing init with
  | nil => exact hinit
  | cons s t ih =>
    rw [List.foldl_cons]
    cases hfs : f s with
    | none => exact ih init hinit
    | some c2 =>
      exact ih _ (mapSet_keyInv init s c2 hinit (hf s c2 hfs))

theorem foldl_keys_nodup (valid : List String) (f : String → Option DbCompany)
    (init : List (String × DbCompany)) (hinit : (init.map (fun p => p.1)).Nodup) :
    (((valid.foldl (fun m s =>
      match f s with
      | some c2 => mapSet m s c2
      | none => m) init)).map (fun p => p.1)).Nodup := by
  induction valid generalizing init with
  | nil => exact hinit
  | cons s t ih =>
    rw [List.foldl_cons]
    cases hfs : f s with
    | none => exact ih init hinit
    | some c2 => exact ih _ (mapSet_keys_nodup init s c2 hinit)

theorem mapGet_mem_values (m : List (String × DbCompany)) (k : String) (v : DbCompany)
    (h : mapGet m k = some v) : v ∈ m.map (fun p => p.2) := by
  unfold mapGet at h
  cases hf : m.find? (fun p => p.1 == k) with
  | none => rw [hf] at h; simp at h
  | some p =>
    rw [hf] at h
    injection h with h
    rw [← h]
    exact List.mem_map_of_mem (fun p => p.2) (List.mem_of_find?_eq_some hf)

theorem values_symbols_nodup (m : List (String × DbCompany))
    (hinv : ∀ p ∈ m, p.2.symbol = p.1) (hnd : (m.map (fun p => p.1)).Nodup) :
    ((m.map (fun p => p.2)).map (fun x => x.symbol)).Nodup := by
  rw [List.map_map]
  have : m.map ((fun x : DbCompany => x.symbol) ∘ fun p => p.2) = m.map (fun p => p.1) :=
    List.map_congr_left (fun p hp => hinv p hp)
  rw [this]
  exact hnd

theorem enumFrom_mem_of_getElem {α : Type} :
    ∀ (l : List α) (n i : Nat) (h : i < l.length), (n + i, l[i]) ∈ List.enumFrom n l := by
  intro l
  induction l with
  | nil => intro n i h; simp at h
  | cons a t ih =>
    intro n i h
    cases i with
    | zero => simp [List.enumFrom_cons]
    | succ j =>
      rw [List.enumFrom_cons]
      refine List.mem_cons_of_mem _ ?_
      have := ih (n + 1) j (by simpa [Nat.succ_lt_succ_iff] using h)
      have harith : n + 1 + j = n + (j + 1) := by omega
      rw [harith] at this
      simpa using this

theorem enum_mem_of_getElem {α : Type} (l : List α) (i : Nat) (h : i < l.length) :
    (i, l[i]) ∈ l.enum := by
  have := enumFrom_mem_of_getElem l 0 i h
  rw [Nat.zero_add] at this
  exact this

/-- Keyed lookup of a company's final record in the non-rerank
partial-update categories: the restamped image of the per-company step. -/
theorem valueMap_restamped_find? (existing : List DbCompany)
    (hnd : (existing.map (fun x => x.symbol)).Nodup)
    (g : String → DbCompany → DbCompany)
    (hg : ∀ s x, (g s x).symbol = x.symbol) (ts : String)
    (c : DbCompany) (hc : c ∈ existing) :
    ((((toCompanyMap existing).map (fun p => (p.1, g p.1 p.2))).map
        (fun p => (p.1, { p.2 with last_updated := ts }))).map (fun p => p.2)).find?
      (fun y => y.symbol == c.symbol) = some { g c.symbol c with last_updated := ts } := by
  rw [mapped_restamped_output existing hnd g ts]
  exact find?_symbol_map existing (fun x => { g x.symbol x with last_updated := ts })
    (fun x _ => hg x.symbol x) hnd c hc

/-- Keyed lookup of a company's final record in the `quotes` category:
the stepped record, re-ranked by its position in the market-cap sort of
all stepped records, then restamped. -/
theorem assignRanks_output (existing : List DbCompany)
    (hnd : (existing.map (fun x => x.symbol)).Nodup)
    (g : String → DbCompany → DbCompany)
    (hg : ∀ s x, (g s x).symbol = x.symbol) (ts : String)
    (c : DbCompany) (hc : c ∈ existing) :
    (((assignRanks ((toCompanyMap existing).map (fun p => (p.1, g p.1 p.2)))).map
        (fun p => (p.1, { p.2 with last_updated := ts }))).map (fun p => p.2)).find?
      (fun y => y.symbol == c.symbol) =
    some { g c.symbol c with
      rank := match (stableSortBy (fun a b => mcDescDb a.2 b.2)
          ((toCompanyMap existing).map (fun p => (p.1, g p.1 p.2)))).findIdx?
          (fun q2 => q2.1 == c.symbol) with
        | some i => some (i + 1)
        | none => (g c.symbol c).rank,
      last_updated := ts } := by
  have hM : (toCompanyMap existing).map (fun p => (p.1, g p.1 p.2)) =
      existing.map (fun x => (x.symbol, g x.symbol x)) := by
    rw [toCompanyMap_eq existing hnd, List.map_map]
    rfl
  simp only [hM]
  unfold assignRanks
  dsimp only
  simp only [List.map_map]
  exact find?_symbol_map existing
    (fun x =>
      { g x.symbol x with
        rank := match (stableSortBy (fun a b => mcDescDb a.2 b.2)
            (existing.map (fun y => (y.symbol, g y.symbol y)))).findIdx?
            (fun q2 => q2.1 == x.symbol) with
          | some i => some (i + 1)
          | none => (g x.symbol x).rank,
        last_updated := ts })
    (fun x _ => hg x.symbol x) hnd c hc

/-- The final map-rebuild plus restamp of the `new_symbols` branch, as a
plain map over the re-ranked list (whose symbols are distinct). -/
theorem final_stage_eq (ranked : List DbCompany) (ts : String)
    (hnd : (ranked.map (fun x => x.symbol)).Nodup) :
    ((ranked.foldl (fun m c => mapSet m c.symbol c) []).map
        (fun p => (p.1, { p.2 with last_updated := ts }))).map (fun p => p.2) =
      ranked.map (fun x => { x with last_updated := ts }) := by
  rw [show ranked.foldl (fun m c => mapSet m c.symbol c) [] = toCompanyMap ranked from rfl,
    toCompanyMap_eq ranked hnd, List.map_map, List.map_map]
  rfl

/-- Absence of a fetched payload for a symbol, per category: the data the
category's update loop looks up was not retrieved (so the loop body
leaves the record alone). The `new_symbols` category fetches nothing for
symbols already in the snapshot. -/
def noFetchFor (u : PartialUpdateType) (env : FMPEnv) (s : String) : Prop :=
  match u with
  | .forward_pe => eventualResult env.estimatesB s = none
  | .quotes => eventualResult env.quoteB s = none
  | .week_52_high => eventualResult env.quoteB s = none
  | .financials => eventualResult env.incomeB s = none ∧ eventualResult env.ratiosB s = none
  | .growth => eventualResult env.growthB s = none
  | .pe_ratio => eventualResult env.ratiosB s = none
  | .currency_fix => eventualResult env.incomeB s = none
  | .new_symbols => True

/-- A `new_symbols` run never rewrites the fields of an already-present
record: its output entry keeps every old field except (possibly) `rank`
and `last_updated`. -/
theorem newSymbols_retention (env : FMPEnv) (existing : List DbCompany) (lu : String)
    (c : DbCompany) (hnd : (existing.map (fun x => x.symbol)).Nodup) (hc : c ∈ existing) :
    ∃ x, (runPartialUpdate .new_symbols env existing lu).1.find?
        (fun y => y.symbol == c.symbol) = some x ∧
      x = { c with rank := x.rank, last_updated := x.last_updated } := by
  by_cases hlen : (SUPPLEMENTAL_SYMBOLS.filter (fun s =>
      !((existing.map (fun x => x.symbol)).contains s))).length = 0
  · have hout : (runPartialUpdate .new_symbols env existing lu).1 = existing := by
      unfold runPartialUpdate
      dsimp only
      rw [if_pos hlen]
    rw [hout]
    exact ⟨c, find?_symbol_self existing hnd c hc, rfl⟩
  · unfold runPartialUpdate
    dsimp only
    rw [if_neg hlen]
    dsimp only
    set symbols := existing.map (fun x => x.symbol) with hsymbols
    set newSymbols := SUPPLEMENTAL_SYMBOLS.filter (fun s => !(symbols.contains s)) with hnew
    set quotes := processSymbolsBatch newSymbols env.quoteB with hquotes
    set validNewSymbols := newSymbols.filter (fun s =>
      match mapGet quotes s with
      | some quote => quote.marketCap != 0 && decide ((100000000 : ℚ) ≤ quote.marketCap)
      | none => false) with hvalid
    set profiles := processSymbolsBatch validNewSymbols env.profileB with hprofiles
    set incomeStatements := processSymbolsBatch validNewSymbols env.incomeB with hincomes
    set ratios := processSymbolsBatch validNewSymbols env.ratiosB with hratios
    set growthData := processSymbolsBatch validNewSymbols env.growthB with hgrowthD
    set estData := processSymbolsBatch validNewSymbols env.estimatesB with hestD
    set withNew := validNewSymbols.foldl (fun m s =>
      match newSymbolCompany s (mapGet quotes s) (mapGet profiles s)
          (mapGet incomeStatements s) (mapGet ratios s) (mapGet growthData s)
          (mapGet estData s) env.fxRates env.now with
      | some c => mapSet m s c
      | none => m) (toCompanyMap existing) with hwithNew
    set allCompanies := stableSortBy mcDescDb (withNew.map (fun p => p.2)) with hall
    set ranked := allCompanies.enum.map
      (fun p => { p.2 with rank := some (p.1 + 1) }) with hranked
    have hinv0 : ∀ p ∈ toCompanyMap existing, p.2.symbol = p.1 := by
      rw [toCompanyMap_eq existing hnd]
      intro p hp
      rcases List.mem_map.mp hp with ⟨y, hy, hyp⟩
      rw [← hyp]
    have hkeys0 : ((toCompanyMap existing).map (fun p => p.1)).Nodup := by
      rw [toCompanyMap_eq existing hnd, List.map_map]
      exact hnd
    have hinvW : ∀ p ∈ withNew, p.2.symbol = p.1 := by
      rw [hwithNew]
      exact foldl_keyInv validNewSymbols
        (fun s => newSymbolCompany s (mapGet quotes s) (mapGet profiles s)
          (mapGet incomeStatements s) (mapGet ratios s) (mapGet growthData s)
          (mapGet estData s) env.fxRates env.now)
        (fun s c2 h => newSymbolCompany_symbol s _ _ _ _ _ _ _ _ c2 h)
        (toCompanyMap existing) hinv0
    have hkeysW : (withNew.map (fun p => p.1)).Nodup := by
      rw [hwithNew]
      exact foldl_keys_nodup validNewSymbols
        (fun s => newSymbolCompany s (mapGet quotes s) (mapGet profiles s)
          (mapGet incomeStatements s) (mapGet ratios s) (mapGet growthData s)
          (mapGet estData s) env.fxRates env.now)
        (toCompanyMap existing) hkeys0
    have hvalsnd : ((withNew.map (fun p => p.2)).map (fun x => x.symbol)).Nodup :=
      values_symbols_nodup withNew hinvW hkeysW
    have hk : ∀ s ∈ validNewSymbols, s ≠ c.symbol := by
      intro s hs
      rw [hvalid] at hs
      have hs2 := List.mem_of_mem_filter hs
      rw [hnew] at hs2
      have hs3 := List.of_mem_filter hs2
      intro he
      rw [he] at hs3
      have hmem : c.symbol ∈ symbols := by
        rw [hsymbols]
        exact List.mem_map_of_mem (fun x => x.symbol) hc
      simp at hs3
      exact hs3 hmem
    have hgetc : mapGet withNew c.symbol = some c := by
      have h1 : mapGet withNew c.symbol = mapGet (toCompanyMap existing) c.symbol := by
        rw [hwithNew]
        exact foldl_get_untouched validNewSymbols
          (fun s => newSymbolCompany s (mapGet quotes s) (mapGet profiles s)
            (mapGet incomeStatements s) (mapGet ratios s) (mapGet growthData s)
            (mapGet estData s) env.fxRates env.now)
          (toCompanyMap existing) c.symbol hk
      rw [h1]
      exact toCompanyMap_get existing hnd c hc
    have hcvals : c ∈ withNew.map (fun p => p.2) := mapGet_mem_values withNew c.symbol c hgetc
    have hcall : c ∈ allCompanies := by
      rw [hall]
      exact ((stableSortBy_perm mcDescDb (withNew.map (fun p => p.2))).mem_iff).mpr hcvals
    obtain ⟨i, hi, hgi⟩ := List.getElem_of_mem hcall
    have henum : (i, c) ∈ allCompanies.enum := by
      have h2 := enum_mem_of_getElem allCompanies i hi
      rw [hgi] at h2
      exact h2
    have hrankedmem : ({ c with rank := some (i + 1) } : DbCompany) ∈ ranked := by
      rw [hranked]
      exact List.mem_map_of_mem (fun p => { p.2 with rank := some (p.1 + 1) }) henum
    have hrankedsyms : (ranked.map (fun x => x.symbol)).Nodup := by
      rw [hranked, List.map_map]
      have he : allCompanies.enum.map ((fun x : DbCompany => x.symbol) ∘
          fun p : Nat × DbCompany => { p.2 with rank := some (p.1 + 1) }) =
          allCompanies.map (fun x => x.symbol) :=
        enum_map_snd_comp allCompanies (fun x => x.symbol)
      rw [he, hall]
      exact ((stableSortBy_perm mcDescDb (withNew.map (fun p => p.2))).map
        (fun x => x.symbol)).nodup_iff.mpr hvalsnd
    refine ⟨{ { c with rank := some (i + 1) } with last_updated := env.now }, ?_, rfl⟩
    rw [final_stage_eq ranked env.now hrankedsyms]
    exact find?_symbol_self (ranked.map (fun x => { x with last_updated := env.now }))
      (by rw [List.map_map]; exact hrankedsyms)
      ({ { c with rank := some (i + 1) } with last_updated := env.now })
      (List.mem_map_of_mem (fun x => { x with last_updated := env.now }) hrankedmem)

/-- C10 (corrected): no partial-update run deletes a record — every
symbol of the loaded snapshot is present in the output — and a record
whose symbol got no fetched payload keeps every previous field value
except the re-stamped `last_updated` and, in the re-sorting categories
`quotes` and `new_symbols` (which re-rank the whole set), possibly
`rank`; outside those two categories even `rank` is retained. -/
theorem C10_no_deletion (u : PartialUpdateType) (env : FMPEnv)
    (existing : List DbCompany) (lu : String) (c : DbCompany)
    (hnd : (existing.map (fun x => x.symbol)).Nodup) (hc : c ∈ existing) :
    (∃ x ∈ (runPartialUpdate u env existing lu).1, x.symbol = c.symbol) ∧
    (noFetchFor u env c.symbol →
      ∃ x, (runPartialUpdate u env existing lu).1.find?
          (fun y => y.symbol == c.symbol) = some x ∧
        x = { c with rank := x.rank, last_updated := x.last_updated } ∧
        (u ≠ .quotes → u ≠ .new_symbols → x.rank = c.rank)) := by
  cases u with
  | forward_pe =>
    have hfind : (runPartialUpdate .forward_pe env existing lu).1.find?
        (fun y => y.symbol == c.symbol) =
        some { forwardPEStep env.fxRates
            (processSymbolsBatch (existing.map (fun y => y.symbol)) env.incomeB)
            (processSymbolsBatch (existing.map (fun y => y.symbol)) env.estimatesB)
            c.symbol c with last_updated := env.now } := by
      unfold runPartialUpdate
      dsimp only
      exact valueMap_restamped_find? existing hnd
        (fun s x => forwardPEStep env.fxRates
          (processSymbolsBatch (existing.map (fun y => y.symbol)) env.incomeB)
          (processSymbolsBatch (existing.map (fun y => y.symbol)) env.estimatesB) s x)
        (fun s x => forwardPEStep_symbol _ _ _ s x) env.now c hc
    refine ⟨exists_of_find? hfind, fun hnf => ?_⟩
    have hstep : forwardPEStep env.fxRates
        (processSymbolsBatch (existing.map (fun y => y.symbol)) env.incomeB)
        (processSymbolsBatch (existing.map (fun y => y.symbol)) env.estimatesB)
        c.symbol c = c :=
      forwardPEStep_none _ _ _ _ _ (by
        rw [processSymbolsBatch_get env.estimatesB _ c.symbol
          (List.mem_map_of_mem (fun y => y.symbol) hc)]
        exact hnf)
    refine ⟨{ c with last_updated := env.now }, ?_, rfl, fun _ _ => rfl⟩
    rw [hfind, hstep]
  | quotes =>
    have hfind : (runPartialUpdate .quotes env existing lu).1.find?
        (fun y => y.symbol == c.symbol) =
        some { quotesStep (processSymbolsBatch (existing.map (fun y => y.symbol))
              env.quoteB) c.symbol c with
          rank := match (stableSortBy (fun a b => mcDescDb a.2 b.2)
              ((toCompanyMap existing).map (fun p => (p.1,
                quotesStep (processSymbolsBatch (existing.map (fun y => y.symbol))
                  env.quoteB) p.1 p.2)))).findIdx? (fun q2 => q2.1 == c.symbol) with
            | some i => some (i + 1)
            | none => (quotesStep (processSymbolsBatch (existing.map (fun y => y.symbol))
                env.quoteB) c.symbol c).rank,
          last_updated := env.now } := by
      unfold runPartialUpdate
      dsimp only
      exact assignRanks_output existing hnd
        (fun s x => quotesStep (processSymbolsBatch (existing.map (fun y => y.symbol))
          env.quoteB) s x)
        (fun s x => quotesStep_symbol _ s x) env.now c hc
    refine ⟨exists_of_find? hfind, fun hnf => ?_⟩
    have hstep : quotesStep (processSymbolsBatch (existing.map (fun y => y.symbol))
        env.quoteB) c.symbol c = c :=
      quotesStep_none _ _ _ (by
        rw [processSymbolsBatch_get env.quoteB _ c.symbol
          (List.mem_map_of_mem (fun y => y.symbol) hc)]
        exact hnf)
    refine ⟨_, hfind, ?_, fun h _ => absurd rfl h⟩
    rw [hstep]
  | week_52_high =>
    have hfind : (runPartialUpdate .week_52_high env existing lu).1.find?
        (fun y => y.symbol == c.symbol) =
        some { week52Step (processSymbolsBatch (existing.map (fun y => y.symbol))
            env.quoteB) c.symbol c with last_updated := env.now } := by
      unfold runPartialUpdate
      dsimp only
      exact valueMap_restamped_find? existing hnd
        (fun s x => week52Step (processSymbolsBatch (existing.map (fun y => y.symbol))
          env.quoteB) s x)
        (fun s x => week52Step_symbol _ s x) env.now c hc
    refine ⟨exists_of_find? hfind, fun hnf => ?_⟩
    have hstep : week52Step (processSymbolsBatch (existing.map (fun y => y.symbol))
        env.quoteB) c.symbol c = c :=
      week52Step_none _ _ _ (by
        rw [processSymbolsBatch_get env.quoteB _ c.symbol
          (List.mem_map_of_mem (fun y => y.symbol) hc)]
        exact hnf)
    refine ⟨{ c with last_updated := env.now }, ?_, rfl, fun _ _ => rfl⟩
    rw [hfind, hstep]
  | financials =>
    have hfind : (runPartialUpdate .financials env existing lu).1.find?
        (fun y => y.symbol == c.symbol) =
        some { financialsStep env.fxRates
            (processSymbolsBatch (existing.map (fun y => y.symbol)) env.incomeB)
            (processSymbolsBatch (existing.map (fun y => y.symbol)) env.ratiosB)
            c.symbol c with last_updated := env.now } := by
      unfold runPartialUpdate
      dsimp only
      exact valueMap_restamped_find? existing hnd
        (fun s x => financialsStep env.fxRates
          (processSymbolsBatch (existing.map (fun y => y.symbol)) env.incomeB)
          (processSymbolsBatch (existing.map (fun y => y.symbol)) env.ratiosB) s x)
        (fun s x => financialsStep_symbol _ _ _ s x) env.now c hc
    refine ⟨exists_of_find? hfind, fun hnf => ?_⟩
    have hstep : financialsStep env.fxRates
        (processSymbolsBatch (existing.map (fun y => y.symbol)) env.incomeB)
        (processSymbolsBatch (existing.map (fun y => y.symbol)) env.ratiosB)
        c.symbol c = c :=
      financialsStep_none _ _ _ _ _
        (by
          rw [processSymbolsBatch_get env.incomeB _ c.symbol
            (List.mem_map_of_mem (fun y => y.symbol) hc)]
          exact hnf.1)
        (by
          rw [processSymbolsBatch_get env.ratiosB _ c.symbol
            (List.mem_map_of_mem (fun y => y.symbol) hc)]
          exact hnf.2)
    refine ⟨{ c with last_updated := env.now }, ?_, rfl, fun _ _ => rfl⟩
    rw [hfind, hstep]
  | growth =>
    have hfind : (runPartialUpdate .growth env existing lu).1.find?
        (fun y => y.symbol == c.symbol) =
        some { growthStep (processSymbolsBatch (existing.map (fun y => y.symbol))
            env.growthB) c.symbol c with last_updated := env.now } := by
      unfold runPartialUpdate
      dsimp only
      exact valueMap_restamped_find? existing hnd
        (fun s x => growthStep (processSymbolsBatch (existing.map (fun y => y.symbol))
          env.growthB) s x)
        (fun s x => growthStep_symbol _ s x) env.now c hc
    refine ⟨exists_of_find? hfind, fun hnf => ?_⟩
    have hstep : growthStep (processSymbolsBatch (existing.map (fun y => y.symbol))
        env.growthB) c.symbol c = c :=
      growthStep_none _ _ _ (by
        rw [processSymbolsBatch_get env.growthB _ c.symbol
          (List.mem_map_of_mem (fun y => y.symbol) hc)]
        exact hnf)
    refine ⟨{ c with last_updated := env.now }, ?_, rfl, fun _ _ => rfl⟩
    rw [hfind, hstep]
  | pe_ratio =>
    have hfind : (runPartialUpdate .pe_ratio env existing lu).1.find?
        (fun y => y.symbol == c.symbol) =
        some { peRatioStep (processSymbolsBatch (existing.map (fun y => y.symbol))
            env.ratiosB) c.symbol c with last_updated := env.now } := by
      unfold runPartialUpdate
      dsimp only
      exact valueMap_restamped_find? existing hnd
        (fun s x => peRatioStep (processSymbolsBatch (existing.map (fun y => y.symbol))
          env.ratiosB) s x)
        (fun s x => peRatioStep_symbol _ s x) env.now c hc
    refine ⟨exists_of_find? hfind, fun hnf => ?_⟩
    have hstep : peRatioStep (processSymbolsBatch (existing.map (fun y => y.symbol))
        env.ratiosB) c.symbol c = c :=
      peRatioStep_none _ _ _ (by
        rw [processSymbolsBatch_get env.ratiosB _ c.symbol
          (List.mem_map_of_mem (fun y => y.symbol) hc)]
        exact hnf)
    refine ⟨{ c with last_updated := env.now }, ?_, rfl, fun _ _ => rfl⟩
    rw [hfind, hstep]
  | currency_fix =>
    have hfind : (runPartialUpdate .currency_fix env existing lu).1.find?
        (fun y => y.symbol == c.symbol) =
        some { (currencyFixStep env.fxRates
            (processSymbolsBatch (existing.map (fun y => y.symbol)) env.incomeB)
            (processSymbolsBatch (existing.map (fun y => y.symbol)) env.estimatesB)
            c.symbol c).1 with last_updated := env.now } := by
      unfold runPartialUpdate
      dsimp only
      rw [currencyFixFold_eq]
      dsimp only
      exact valueMap_restamped_find? existing hnd
        (fun s x => (currencyFixStep env.fxRates
          (processSymbolsBatch (existing.map (fun y => y.symbol)) env.incomeB)
          (processSymbolsBatch (existing.map (fun y => y.symbol)) env.estimatesB) s x).1)
        (fun s x => currencyFixStep_symbol _ _ _ s x) env.now c hc
    refine ⟨exists_of_find? hfind, fun hnf => ?_⟩
    have hstep : currencyFixStep env.fxRates
        (processSymbolsBatch (existing.map (fun y => y.symbol)) env.incomeB)
        (processSymbolsBatch (existing.map (fun y => y.symbol)) env.estimatesB)
        c.symbol c = (c, 0, 0) :=
      currencyFixStep_none _ _ _ _ _ (by
        rw [processSymbolsBatch_get env.incomeB _ c.symbol
          (List.mem_map_of_mem (fun y => y.symbol) hc)]
        exact hnf)
    refine ⟨{ c with last_updated := env.now }, ?_, rfl, fun _ _ => rfl⟩
    rw [hfind, hstep]
  | new_symbols =>
    obtain ⟨x, hfx, hshape⟩ := newSymbols_retention env existing lu c hnd hc
    exact ⟨exists_of_find? hfx, fun _ => ⟨x, hfx, hshape, fun _ h => absurd rfl h⟩⟩

/-- A quote for symbol `RB` only: market cap 200, so `RB` overtakes. -/
def quoteRB : FMPQuote :=
  { symbol := "RB", name := "RB Inc", price := 5, changePercentage := 1,
    marketCap := 200, yearHigh := none }

/-- Snapshot record `RA`: rank 1 with market cap 100. -/
def dbRA : DbCompany := { baseDb "RA" with rank := some 1, market_cap := some 100 }

/-- Snapshot record `RB`: rank 2 with market cap 50. -/
def dbRB : DbCompany := { baseDb "RB" with rank := some 2, market_cap := some 50 }

/-- Environment whose quote fetch succeeds only for `RB` (404 for `RA`
and everything else). -/
def qEnv : FMPEnv :=
  { screenerPages := fun _ => []
    screenerFuel := 0
    quoteB := fun s _ => if s == "RB" then .ok (some quoteRB) else .err (some 404) ""
    profileB := fun _ _ => .err (some 404) ""
    incomeB := fun _ _ => .err (some 404) ""
    ratiosB := fun _ _ => .err (some 404) ""
    growthB := fun _ _ => .err (some 404) ""
    estimatesB := fun _ _ => .err (some 404) ""
    fxRates := []
    now := "NEWTS" }

/-- C10 counterexample: in a `quotes` run, symbol `RA` gets no fetched
quote (its fetch 404s), yet its `rank` field changes from 1 to 2,
because the branch re-sorts and re-ranks the whole snapshot and `RB`'s
freshly fetched market cap overtakes `RA`. So an unfetched symbol does
not retain all of its previous field values besides `last_updated`. -/
theorem C10_rank_change_counterexample :
    eventualResult qEnv.quoteB "RA" = none ∧
    ((runPartialUpdate .quotes qEnv [dbRA, dbRB] "OLDLU").1.find?
        (fun y => y.symbol == "RA")).map (fun x => x.rank) = some (some 2) ∧
    dbRA.rank = some 1 :=
  ⟨rfl, rfl, rfl⟩

/-- Environment for the C10 witness: every per-symbol fetch 404s. -/
def c10Env : FMPEnv :=
  { screenerPages := fun _ => []
    screenerFuel := 0
    quoteB := fun _ _ => .err (some 404) ""
    profileB := fun _ _ => .err (some 404) ""
    incomeB := fun _ _ => .err (some 404) ""
    ratiosB := fun _ _ => .err (some 404) ""
    growthB := fun _ _ => .err (some 404) ""
    estimatesB := fun _ _ => .err (some 404) ""
    fxRates := []
    now := "NEWRUN" }

/-- Witness for C10: a `growth` run over a one-record snapshot whose
growth fetch 404s keeps the record present with every field (rank
included) retained. -/
theorem C10_no_deletion_witness :
    (∃ x ∈ (runPartialUpdate .growth c10Env [baseDb "KKK"] "OLDLU").1,
      x.symbol = (baseDb "KKK").symbol) ∧
    (∃ x, (runPartialUpdate .growth c10Env [baseDb "KKK"] "OLDLU").1.find?
        (fun y => y.symbol == (baseDb "KKK").symbol) = some x ∧
      x = { baseDb "KKK" with rank := x.rank, last_updated := x.last_updated } ∧
      (PartialUpdateType.growth ≠ .quotes → PartialUpdateType.growth ≠ .new_symbols →
        x.rank = (baseDb "KKK").rank)) := by
  have h := C10_no_deletion .growth c10Env [baseDb "KKK"] "OLDLU" (baseDb "KKK")
    (by simp) (List.mem_cons_self _ _)
  exact ⟨h.1, h.2 rfl⟩

end CMC
